import Mathlib

/-!
# CitationNet: data preprocessing, statistics and layout strength

A shallow embedding of `static/force-citationNet.js` (class `CitationNet`).

Modelling conventions
* JavaScript object references (nodes held in `outgoingLinkTo`, edges held in
  `outgoingLinks`, `this.inputNode`) are indices into `data.nodes` / `data.edges`.
* A property that may be `undefined` is an `Option`; `delete o.p` sets it to `none`.
* Node ids and edge endpoints are strings; `id_map` is a plain key/value map on
  them (latest assignment wins). Keys inherited from `Object.prototype` are not modelled.
* `nodeyear` is an integer, so `fz` is computed in `Int`.
* Other numbers (`ref-by-count`, strengths, bucket fractions) are exact rationals
  extended with `NaN` and the two infinities; rounding and the sign of zero are
  not modelled.
* A JavaScript exception is `Except.error`; the state left behind by a call that
  throws inside `processData` is not tracked.
-/

namespace CitationNet

/-! ## Numbers -/

/-- A JavaScript number in exact arithmetic: a rational, an infinity or `NaN`. -/
inductive JSNum where
  | fin (q : ℚ)
  | posInf
  | negInf
  | nan
  deriving DecidableEq

namespace JSNum

/-- The infinity with the sign of `q` (`q ≠ 0`). -/
def infOfSign (q : ℚ) : JSNum := if 0 < q then posInf else negInf

/-- Unary minus. -/
def neg : JSNum → JSNum
  | fin q => fin (-q)
  | posInf => negInf
  | negInf => posInf
  | nan => nan

/-- The operator `+`. -/
def add : JSNum → JSNum → JSNum
  | fin a, fin b => fin (a + b)
  | nan, _ => nan
  | _, nan => nan
  | posInf, negInf => nan
  | negInf, posInf => nan
  | posInf, _ => posInf
  | negInf, _ => negInf
  | fin _, posInf => posInf
  | fin _, negInf => negInf

/-- The operator `-`. -/
def sub (a b : JSNum) : JSNum := add a (neg b)

/-- The operator `*`. -/
def mul : JSNum → JSNum → JSNum
  | fin a, fin b => fin (a * b)
  | nan, _ => nan
  | _, nan => nan
  | fin a, posInf => if a = 0 then nan else infOfSign a
  | fin a, negInf => if a = 0 then nan else infOfSign (-a)
  | posInf, fin b => if b = 0 then nan else infOfSign b
  | negInf, fin b => if b = 0 then nan else infOfSign (-b)
  | posInf, posInf => posInf
  | negInf, negInf => posInf
  | posInf, negInf => negInf
  | negInf, posInf => negInf

/-- The operator `/`. A zero divisor is taken as `+0`. -/
def div : JSNum → JSNum → JSNum
  | fin a, fin b => if b = 0 then (if a = 0 then nan else infOfSign a) else fin (a / b)
  | nan, _ => nan
  | _, nan => nan
  | fin _, posInf => fin 0
  | fin _, negInf => fin 0
  | posInf, fin b => if 0 ≤ b then posInf else negInf
  | negInf, fin b => if 0 ≤ b then negInf else posInf
  | posInf, posInf => nan
  | negInf, negInf => nan
  | posInf, negInf => nan
  | negInf, posInf => nan

/-- The operator `<=` (false as soon as an operand is `NaN`). -/
def le : JSNum → JSNum → Bool
  | fin a, fin b => decide (a ≤ b)
  | nan, _ => false
  | _, nan => false
  | negInf, _ => true
  | _, posInf => true
  | posInf, _ => false
  | fin _, negInf => false

/-- The operator `>=`. -/
def ge (a b : JSNum) : Bool := le b a

end JSNum

/-! ## Data model -/

/-- The exception raised by a property access on `undefined`. -/
inductive JSError where
  | TypeError
  deriving DecidableEq

/-- The `attributes` object of a node. -/
structure Attributes where
  doi : Option String
  nodeyear : Int
  refByCount : ℚ
  category_for : Option String
  is_input_DOI : String
  deriving DecidableEq

/-- An edge record; `source` and `target` are node ids. -/
structure Edge where
  source : String
  target : String
  color : Option String
  size : Option ℚ
  deriving DecidableEq

/-- A node record with the properties `processData` reads, writes or deletes. -/
structure Node where
  id : String
  attributes : Attributes
  color : Option String
  size : Option ℚ
  x : Option ℚ
  y : Option ℚ
  fx : Option Int
  fy : Option Int
  fz : Option Int
  outgoingLinks : Option (List Nat)
  outgoingLinkTo : Option (List Nat)
  incomingLinks : Option (List Nat)
  incomingLinkFrom : Option (List Nat)
  deriving DecidableEq

/-- The parsed payload: `data.nodes` and `data.edges`. -/
structure Data where
  nodes : List Node
  edges : List Edge
  deriving DecidableEq

/-- One entry of `this.stats`. -/
structure Bucket where
  category : String
  value : JSNum
  start : JSNum
  end_ : JSNum
  amount : Nat
  deriving DecidableEq

/-- The fields of a `CitationNet` object used by preprocessing and statistics;
`jsondata` is the parsed payload and `inputNode` an index into `data.nodes`. -/
structure State where
  jsondata : Data
  data : Data
  inputNode : Option Nat
  stats : List Bucket

/-! ## processData -/

/-- The test `o.attributes.is_input_DOI == "True"`. -/
def isInput (o : Node) : Bool := o.attributes.is_input_DOI == "True"

/-- The expression `data.nodes.filter(o => o.attributes.is_input_DOI == "True")[0]`:
the first flagged node with its position, or `none` for `undefined`. -/
def findInputNode (nodes : List Node) : Option (Nat × Node) :=
  (nodes.enum.filter (fun p => isInput p.2)).head?

/-- The object `id_map` after the first loop: each id is bound to the index of the
last node carrying it. -/
def buildIdMap : Nat → List Node → (String → Option Nat) → (String → Option Nat)
  | _, [], m => m
  | i, n :: ns, m => buildIdMap (i + 1) ns (fun k => if k = n.id then some i else m k)

/-- The value of `fz` assigned in the first loop. -/
def yearOffset (nodeyear inputyear : Int) : Int :=
  if nodeyear ≥ inputyear then 5 * (nodeyear - inputyear + 20)
  else 5 * (nodeyear - inputyear - 20)

/-- The body of the first loop on one node, given the input node's year. -/
def initNode (inputyear : Int) (n : Node) : Node :=
  { n with
    outgoingLinks := some []
    outgoingLinkTo := some []
    incomingLinks := some []
    incomingLinkFrom := some []
    color := none
    size := none
    x := none
    y := none
    fz := some (yearOffset n.attributes.nodeyear inputyear) }

/-- The four assignments that pin the input node and colour it red. -/
def pinInput (n : Node) : Node :=
  { n with fx := some 0, fy := some 0, fz := some 0, color := some "red" }

/-- The two pushes on the source node `a` of edge number `j` whose target node is `b`. -/
def pushOutgoing (j b : Nat) (a : Node) : Node :=
  { a with
    outgoingLinks := some (a.outgoingLinks.getD [] ++ [j])
    outgoingLinkTo := some (a.outgoingLinkTo.getD [] ++ [b]) }

/-- The two pushes on the target node `b` of edge number `j` whose source node is `a`. -/
def pushIncoming (j a : Nat) (b : Node) : Node :=
  { b with
    incomingLinks := some (b.incomingLinks.getD [] ++ [j])
    incomingLinkFrom := some (b.incomingLinkFrom.getD [] ++ [a]) }

/-- The lookup `data.nodes[id_map[key]]`, as an index; `none` for `undefined`. -/
def resolve (id_map : String → Option Nat) (nodes : List Node) (key : String) : Option Nat :=
  (id_map key).bind (fun i => if i < nodes.length then some i else none)

/-- The callback of `data.edges.forEach` on edge number `j`. -/
def crossLink (id_map : String → Option Nat) (nodes : List Node) (j : Nat) (edge : Edge) :
    Except JSError (List Node) :=
  match resolve id_map nodes edge.source, resolve id_map nodes edge.target with
  | some a, some b =>
    .ok (List.modify (pushIncoming j a) b (List.modify (pushOutgoing j b) a nodes))
  | _, _ => .error JSError.TypeError

/-- The loop `data.edges.forEach` from edge number `j` on. -/
def crossLinkAll (id_map : String → Option Nat) :
    Nat → List Edge → List Node → Except JSError (List Node)
  | _, [], nodes => .ok nodes
  | j, edge :: rest, nodes =>
    match crossLink id_map nodes j edge with
    | .error err => .error err
    | .ok nodes1 => crossLinkAll id_map (j + 1) rest nodes1

/-- The two deletions at the end of the `forEach` callback. -/
def stripEdge (edge : Edge) : Edge := { edge with color := none, size := none }

/-- The method `processData`. -/
def processData (self : State) : Except JSError State :=
  match findInputNode self.data.nodes with
  | none => .error JSError.TypeError
  | some (k, inputNode) =>
    let id_map := buildIdMap 0 self.data.nodes (fun _ => none)
    let nodes1 := self.data.nodes.map (initNode inputNode.attributes.nodeyear)
    let nodes2 := List.modify pinInput k nodes1
    match crossLinkAll id_map 0 self.data.edges nodes2 with
    | .error err => .error err
    | .ok nodes3 =>
      .ok { self with
            inputNode := some k
            data := { nodes := nodes3, edges := self.data.edges.map stripEdge } }

/-! ## getStats -/

/-- The constant `fieldOfResearchDivisions`. -/
def fieldOfResearchDivisions : List String :=
  ["00", "01", "02", "03", "04", "05", "06", "07", "08", "09", "10", "11",
   "12", "13", "14", "15", "16", "17", "18", "19", "20", "21", "22"]

/-- The expression `nodes.filter(node => node.attributes.category_for == division).length`. -/
def categoryCount (nodes : List Node) (division : String) : Nat :=
  (nodes.filter (fun node => node.attributes.category_for == some division)).length

/-- The callback of `fieldOfResearchDivisions.forEach`; the accumulator is
`this.stats` with the variable `cumulative`. -/
def statsStep (nodes : List Node) (acc : List Bucket × JSNum) (division : String) :
    List Bucket × JSNum :=
  let x := JSNum.div (.fin (categoryCount nodes division)) (.fin nodes.length)
  (acc.1 ++ [{ category := division, value := x, start := acc.2, end_ := acc.2.add x,
               amount := categoryCount nodes division }],
   acc.2.add x)

/-- The array `this.stats` after the `forEach` loop of `getStats`. -/
def buildStats (nodes : List Node) : List Bucket :=
  (fieldOfResearchDivisions.foldl (statsStep nodes) ([], .fin 0)).1

/-- The statement `this.stats.filter(stat => stat.category == "")[0].category = "none"`. -/
def relabelEmpty (stats : List Bucket) : Except JSError (List Bucket) :=
  match stats.findIdx? (fun stat => stat.category == "") with
  | none => .error JSError.TypeError
  | some i => .ok (List.modify (fun stat => { stat with category := "none" }) i stats)

/-- The method `getStats`: the object afterwards, and the returned array or the
exception raised. The field `jsondata` is the payload as parsed by `fetchJSON`; the
buckets pushed on `this.stats` stay there when the relabelling statement throws. -/
def getStats (self : State) : State × Except JSError (List Bucket) :=
  let self1 := { self with data := self.jsondata }
  match processData self1 with
  | .error err => (self1, .error err)
  | .ok self2 =>
    let stats := buildStats self2.data.nodes
    match relabelEmpty stats with
    | .error err => ({ self2 with stats := stats }, .error err)
    | .ok stats1 => ({ self2 with stats := stats1 }, .ok stats1)

/-! ## strengthFuncFactory -/

/-- The function returned by `strengthFuncFactory`; `pow` is the operator `**`. -/
def strengthFuncFactory (pow : JSNum → JSNum → JSNum)
    (minStrength maxStrength min max exp : JSNum) (node : Node) : JSNum :=
  let x := JSNum.fin node.attributes.refByCount
  let out := minStrength.add (((x.sub min).mul (maxStrength.sub minStrength)).div (max.sub min))
  if out.le minStrength then minStrength
  else if out.ge maxStrength then maxStrength
  else pow out exp

/-! ## readLayout -/

/-- The force `d3.forceRadial(radius).strength(...)` handed to `graph.d3Force`. -/
structure RadialForce where
  radius : JSNum
  strength : Node → JSNum

/-- The method `readLayout` on the two slider values: the force installed as
`radialOuter`. The call passes four arguments, so `exp` takes its default `1.0`. -/
def readLayout (pow : JSNum → JSNum → JSNum) (radius outerValue : JSNum) : RadialForce :=
  if outerValue = .fin 0 then
    { radius := radius, strength := fun _ => .fin 1 }
  else
    { radius := radius
      strength := strengthFuncFactory pow (.fin 0) (.fin 1) (.fin 0) outerValue (.fin 1) }

/-! ## The graph view: makeGraph, initialize and the toggles -/

/-- The argument of `graph.graphData(...)`, as held by the renderer. -/
structure GraphData where
  nodes : List Node
  links : List Edge

/-- A `CitationNet` object once the graph exists: the data fields in `net`, the
renderer's `graphData` and the control flags. An unset flag reads as `false`. The
array `graph.nodes` is `net.data.nodes` itself, so both hold the same node objects.
The renderer replaces the endpoint ids of every link by the node objects that carry
them; `edge.source.id` is then the string kept in `source`, and likewise for `target`. -/
structure View where
  net : State
  graph : GraphData
  nodeSize : Bool
  nodeValByCites : Bool
  edgesOnlyInput : Bool
  distanceFromInputNode : Bool
  is_initialized : Bool

/-- The array `data.nodes` after `sort` by descending `ref-by-count` (a stable sort),
each node tagged with the position it had before. -/
def sortNodes (nodes : List Node) : List (Nat × Node) :=
  List.insertionSort
    (fun a b => b.2.attributes.refByCount ≤ a.2.attributes.refByCount) nodes.enum

/-- The position after the sort of the node that was at position `old`. -/
def newIndex (tagged : List (Nat × Node)) (old : Nat) : Nat :=
  tagged.findIdx (fun p => p.1 == old)

/-- A node whose references to other nodes follow them to their new positions. -/
def relinkNode (tagged : List (Nat × Node)) (n : Node) : Node :=
  { n with
    outgoingLinkTo := n.outgoingLinkTo.map (List.map (newIndex tagged))
    incomingLinkFrom := n.incomingLinkFrom.map (List.map (newIndex tagged)) }

/-- The value of `fz` assigned by `makeGraph` and by `toggleDistanceFromInputNode` when
the flag was on: both branches of the source are the same expression. -/
def plainOffset (nodeyear inputyear : Int) : Int :=
  if nodeyear ≥ inputyear then 5 * (nodeyear - inputyear)
  else 5 * (nodeyear - inputyear)

/-- The loop over `graph.graphData().nodes` that sets `fz` from `offset`, followed by
`this.inputNode.fz = 0`. -/
def setHeights (offset : Int → Int → Int) (inputNode : Option Nat) (nodes : List Node) :
    Except JSError (List Node) :=
  match inputNode.bind (fun k => (nodes[k]?).map (fun inp => (k, inp))) with
  | none => .error JSError.TypeError
  | some (k, inp) =>
    .ok (List.modify (fun n => { n with fz := some 0 }) k
      (nodes.map (fun n =>
        { n with fz := some (offset n.attributes.nodeyear inp.attributes.nodeyear) })))

/-- The method `makeGraph`: sorts `data.nodes`, hands nodes and edges to the renderer,
sets every `fz` without the year gap and clears the flag `distanceFromInputNode`. -/
def makeGraph (self : State) : Except JSError View :=
  let tagged := sortNodes self.data.nodes
  match tagged with
  | [] => .error JSError.TypeError
  | _ :: _ =>
    let nodes1 := tagged.map (fun p => relinkNode tagged p.2)
    let inputNode := self.inputNode.map (newIndex tagged)
    match setHeights plainOffset inputNode nodes1 with
    | .error err => .error err
    | .ok nodes2 =>
      .ok { net := { self with data := { nodes := nodes2, edges := self.data.edges }
                               inputNode := inputNode }
            graph := { nodes := nodes2, links := self.data.edges }
            nodeSize := false
            nodeValByCites := false
            edgesOnlyInput := false
            distanceFromInputNode := false
            is_initialized := false }

/-- The method `toggleNodeSize`. -/
def toggleNodeSize (v : View) : View :=
  if v.nodeSize then { v with nodeValByCites := false, nodeSize := false }
  else { v with nodeValByCites := true, nodeSize := true }

/-- The statements of `initialize` after `await this.getStats()`, with the default
`make_cylinder = false`; window size and camera are not part of the state. -/
def initializeRest (self : State) : Except JSError View :=
  match makeGraph self with
  | .error err => .error err
  | .ok v =>
    let v1 := { v with nodeSize := false, edgesOnlyInput := false,
                       distanceFromInputNode := true }
    .ok { toggleNodeSize v1 with is_initialized := true }

/-- The method `initialize` (the name is reserved in Lean). -/
def initializeNet (self : State) : Except JSError View :=
  match getStats self with
  | (_, .error err) => .error err
  | (self1, .ok _) => initializeRest self1

/-- The method `toggleEdgesOnlyInput`. -/
def toggleEdgesOnlyInput (v : View) : Except JSError View :=
  if v.edgesOnlyInput then
    .ok { v with graph := { nodes := v.net.data.nodes, links := v.net.data.edges }
                 edgesOnlyInput := false }
  else
    match v.net.data.edges, v.net.inputNode.bind (fun k => v.net.data.nodes[k]?) with
    | [], _ =>
      .ok { v with graph := { nodes := v.net.data.nodes, links := [] }
                   edgesOnlyInput := true }
    | _ :: _, none => .error JSError.TypeError
    | edges, some inputNode =>
      let filteredEdges :=
        edges.filter (fun edge => edge.source == inputNode.id || edge.target == inputNode.id)
      .ok { v with graph := { nodes := v.net.data.nodes, links := filteredEdges }
                   edgesOnlyInput := true }

/-- The method `toggleDistanceFromInputNode`; the loop runs over the node objects
shared by `graph.nodes` and `net.data.nodes`. -/
def toggleDistanceFromInputNode (v : View) : Except JSError View :=
  let offset := if v.distanceFromInputNode then plainOffset else yearOffset
  match setHeights offset v.net.inputNode v.graph.nodes,
        setHeights offset v.net.inputNode v.net.data.nodes with
  | .ok graphNodes, .ok dataNodes =>
    .ok { v with net := { v.net with data := { v.net.data with nodes := dataNodes } }
                 graph := { v.graph with nodes := graphNodes }
                 distanceFromInputNode := !v.distanceFromInputNode }
  | _, _ => .error JSError.TypeError

/-! ## Specification vocabulary -/

/-- The update of an array-valued property by pushes of the elements of `l`. -/
def appendLinks (x : Option (List Nat)) (l : List Nat) : Option (List Nat) :=
  if l = [] then x else some (x.getD [] ++ l)

/-- A node after pushes of the given lists on its four adjacency arrays. -/
def addLinks (n : Node) (o ot i ifr : List Nat) : Node :=
  { n with
    outgoingLinks := appendLinks n.outgoingLinks o
    outgoingLinkTo := appendLinks n.outgoingLinkTo ot
    incomingLinks := appendLinks n.incomingLinks i
    incomingLinkFrom := appendLinks n.incomingLinkFrom ifr }

/-- The numbered edges of `l` whose source is bound to node `i`. -/
def outEdges (m : String → Option Nat) (i : Nat) (l : List (Nat × Edge)) : List (Nat × Edge) :=
  l.filter (fun p => decide (m p.2.source = some i))

/-- The numbered edges of `l` whose target is bound to node `i`. -/
def inEdges (m : String → Option Nat) (i : Nat) (l : List (Nat × Edge)) : List (Nat × Edge) :=
  l.filter (fun p => decide (m p.2.target = some i))

/-- Node `i` after cross-linking the numbered edges `l`. -/
def linkNode (m : String → Option Nat) (l : List (Nat × Edge)) (i : Nat) (n : Node) : Node :=
  addLinks n ((outEdges m i l).map Prod.fst)
    ((outEdges m i l).map (fun p => (m p.2.target).getD 0))
    ((inEdges m i l).map Prod.fst)
    ((inEdges m i l).map (fun p => (m p.2.source).getD 0))

/-- Node number `i` after `processData`, given the input node's index and year. -/
def processedNode (d : Data) (k : Nat) (inputyear : Int) (i : Nat) (n : Node) : Node :=
  linkNode (buildIdMap 0 d.nodes (fun _ => none)) d.edges.enum i
    (if k = i then pinInput (initNode inputyear n) else initNode inputyear n)

/-- Node ids are pairwise distinct. -/
def uniqueIds (d : Data) : Prop := (d.nodes.map (fun n => n.id)).Nodup

/-- Exactly one node carries the input flag. -/
def oneInput (d : Data) : Prop := (d.nodes.filter isInput).length = 1

/-- Every edge endpoint is the id of some node. -/
def resolvable (d : Data) : Prop :=
  ∀ e ∈ d.edges, (∃ n ∈ d.nodes, n.id = e.source) ∧ (∃ n ∈ d.nodes, n.id = e.target)

instance (d : Data) : Decidable (uniqueIds d) := by
  unfold uniqueIds
  infer_instance

instance (d : Data) : Decidable (oneInput d) := by
  unfold oneInput
  infer_instance

instance (d : Data) : Decidable (resolvable d) := by
  unfold resolvable
  infer_instance

/-- The node is fixed at the origin: `fx`, `fy` and `fz` are all `0`. -/
def atOrigin (n : Node) : Bool := n.fx == some 0 && n.fy == some 0 && n.fz == some 0

/-- The length of `outgoingLinks`. -/
def outDegree (n : Node) : Nat := (n.outgoingLinks.getD []).length

/-- The length of `incomingLinks`. -/
def inDegree (n : Node) : Nat := (n.incomingLinks.getD []).length

/-- The fraction of the nodes that carry the code `division`, as a rational. -/
def categoryFraction (nodes : List Node) (division : String) : ℚ :=
  (categoryCount nodes division : ℚ) / (nodes.length : ℚ)

/-- The buckets for the codes `divisions` when the running total starts at `c`. -/
def bucketsFrom (nodes : List Node) : ℚ → List String → List Bucket
  | _, [] => []
  | c, d :: ds =>
    { category := d
      value := .fin (categoryFraction nodes d)
      start := .fin c
      end_ := .fin (c + categoryFraction nodes d)
      amount := categoryCount nodes d } ::
      bucketsFrom nodes (c + categoryFraction nodes d) ds

/-- The sum of the `value` fields, added up in bucket order as `cumulative` is. -/
def valueSum (stats : List Bucket) : JSNum :=
  stats.foldl (fun (t : JSNum) (b : Bucket) => t.add b.value) (JSNum.fin 0)

/-- The dataset of the specification's example: input node `A` (2000) cited by `B` (2005). -/
def exampleAB : State :=
  let a : Node := ⟨"A", ⟨none, 2000, 5, none, "True"⟩,
    none, none, none, none, none, none, none, none, none, none, none⟩
  let b : Node := ⟨"B", ⟨none, 2005, 10, none, "False"⟩,
    none, none, none, none, none, none, none, none, none, none, none⟩
  let d : Data := ⟨[a, b], [⟨"B", "A", none, none⟩]⟩
  ⟨d, d, none, []⟩

/-- A node with the given id and field-of-research code and no other property set. -/
def nodeOfCategory (id : String) (code : Option String) : Node :=
  ⟨id, ⟨none, 2000, 0, code, "False"⟩,
    none, none, none, none, none, none, none, none, none, none, none⟩

/-- The specification's example of 100 nodes split evenly over the codes 00 and 01. -/
def hundredNodes : List Node :=
  List.replicate 50 (nodeOfCategory "n" (some "00")) ++
    List.replicate 50 (nodeOfCategory "n" (some "01"))

/-- A node with the given citation count and no other property set. -/
def nodeOfCount (count : ℚ) : Node :=
  ⟨"n", ⟨none, 2000, count, none, "False"⟩,
    none, none, none, none, none, none, none, none, none, none, none⟩

/-- An object whose payload has no nodes and no edges. -/
def emptyState : State := ⟨⟨[], []⟩, ⟨[], []⟩, none, []⟩

/-- The operator `**` at the natural exponent `n`, by repeated multiplication. -/
def powNat (n : Nat) (b : JSNum) (_exp : JSNum) : JSNum :=
  match n with
  | 0 => .fin 1
  | k + 1 => (powNat k b _exp).mul b

/-- The interpolated value `out` of the strength function, for finite arguments. -/
def interpolate (minStrength maxStrength min max x : ℚ) : ℚ :=
  minStrength + (x - min) * (maxStrength - minStrength) / (max - min)

/-- A dataset with an edge that does not touch the input node: input node `A` (2000),
`B` (2005) and `C` (1995), with the edges `B → A`, `B → C` and `A → C`. -/
def exampleABC : State :=
  let a : Node := ⟨"A", ⟨none, 2000, 5, none, "True"⟩,
    none, none, none, none, none, none, none, none, none, none, none⟩
  let b : Node := ⟨"B", ⟨none, 2005, 10, none, "False"⟩,
    none, none, none, none, none, none, none, none, none, none, none⟩
  let c : Node := ⟨"C", ⟨none, 1995, 7, none, "False"⟩,
    none, none, none, none, none, none, none, none, none, none, none⟩
  let d : Data := ⟨[a, b, c], [⟨"B", "A", none, none⟩, ⟨"B", "C", none, none⟩,
    ⟨"A", "C", none, none⟩]⟩
  ⟨d, d, none, []⟩

/-- The view of `exampleABC` after `processData` and the statements of `initialize`
that follow `getStats`. -/
def exampleView : View :=
  match (processData exampleABC).bind initializeRest with
  | .ok v => v
  | .error _ => ⟨emptyState, ⟨[], []⟩, false, false, false, false, false⟩

/-! ## Lemmas on processData -/

theorem appendLinks_nil (x : Option (List Nat)) : appendLinks x [] = x := by
  simp [appendLinks]

theorem appendLinks_append (x : Option (List Nat)) (l1 l2 : List Nat) :
    appendLinks (appendLinks x l1) l2 = appendLinks x (l1 ++ l2) := by
  unfold appendLinks
  by_cases h1 : l1 = [] <;> by_cases h2 : l2 = [] <;> simp [h1, h2]

theorem appendLinks_some_nil (l : List Nat) : appendLinks (some []) l = some l := by
  unfold appendLinks
  by_cases h : l = [] <;> simp [h]

theorem addLinks_nil (n : Node) : addLinks n [] [] [] [] = n := by
  simp [addLinks, appendLinks_nil]

theorem addLinks_addLinks (n : Node) (o ot i ifr o2 ot2 i2 ifr2 : List Nat) :
    addLinks (addLinks n o ot i ifr) o2 ot2 i2 ifr2
      = addLinks n (o ++ o2) (ot ++ ot2) (i ++ i2) (ifr ++ ifr2) := by
  simp [addLinks, appendLinks_append]

theorem pushOutgoing_eq (j b : Nat) (n : Node) :
    pushOutgoing j b n = addLinks n [j] [b] [] [] := by
  simp [pushOutgoing, addLinks, appendLinks]

theorem pushIncoming_eq (j a : Nat) (n : Node) :
    pushIncoming j a n = addLinks n [] [] [j] [a] := by
  simp [pushIncoming, addLinks, appendLinks]

theorem crossLink_ok {m : String → Option Nat} {ns ns1 : List Node} {j : Nat} {e : Edge}
    (h : crossLink m ns j e = .ok ns1) :
    ∃ a b, m e.source = some a ∧ m e.target = some b ∧ a < ns.length ∧ b < ns.length ∧
      ns1 = List.modify (pushIncoming j a) b (List.modify (pushOutgoing j b) a ns) := by
  unfold crossLink at h
  cases ha : resolve m ns e.source with
  | none => simp [ha] at h
  | some a =>
    cases hb : resolve m ns e.target with
    | none => simp [ha, hb] at h
    | some b =>
      simp only [ha, hb, Except.ok.injEq] at h
      unfold resolve at ha hb
      cases hma : m e.source with
      | none => simp [hma] at ha
      | some a1 =>
        cases hmb : m e.target with
        | none => simp [hmb] at hb
        | some b1 =>
          simp only [hma, hmb, Option.some_bind] at ha hb
          split at ha
          · split at hb
            · cases ha; cases hb
              exact ⟨a, b, rfl, rfl, by assumption, by assumption, h.symm⟩
            · cases hb
          · cases ha

theorem crossLink_getElem? {m : String → Option Nat} {ns ns1 : List Node} {j : Nat} {e : Edge}
    (h : crossLink m ns j e = .ok ns1) (i : Nat) :
    ns1[i]? = (ns[i]?).map (linkNode m [(j, e)] i) := by
  obtain ⟨a, b, ha, hb, -, -, rfl⟩ := crossLink_ok h
  rw [List.getElem?_modify, List.getElem?_modify]
  cases hn : ns[i]? with
  | none => simp
  | some n =>
    simp only [Option.map_eq_map, Option.map_some']
    congr 1
    by_cases hai : a = i <;> by_cases hbi : b = i <;>
      simp [linkNode, outEdges, inEdges, ha, hb, hai, hbi, pushOutgoing_eq, pushIncoming_eq,
        addLinks_addLinks, addLinks_nil]

theorem linkNode_cons (m : String → Option Nat) (p : Nat × Edge) (l : List (Nat × Edge))
    (i : Nat) (n : Node) :
    linkNode m l i (linkNode m [p] i n) = linkNode m (p :: l) i n := by
  simp only [linkNode, addLinks_addLinks, outEdges, inEdges, ← List.map_append,
    ← List.filter_append, List.singleton_append]

theorem crossLinkAll_getElem? (m : String → Option Nat) :
    ∀ (es : List Edge) (j : Nat) (ns ns1 : List Node),
      crossLinkAll m j es ns = .ok ns1 →
      ∀ i, ns1[i]? = (ns[i]?).map (linkNode m (es.enumFrom j) i)
  | [], j, ns, ns1, h, i => by
    simp only [crossLinkAll, Except.ok.injEq] at h
    subst h
    cases hn : ns[i]? <;> simp [linkNode, outEdges, inEdges, addLinks_nil]
  | e :: es, j, ns, ns1, h, i => by
    simp only [crossLinkAll] at h
    cases hstep : crossLink m ns j e with
    | error err => simp [hstep] at h
    | ok ns2 =>
      simp only [hstep] at h
      rw [crossLinkAll_getElem? m es (j + 1) ns2 ns1 h i, crossLink_getElem? hstep i]
      cases hn : ns[i]? with
      | none => simp
      | some n => simp [List.enumFrom_cons, linkNode_cons]

theorem crossLinkAll_total (m : String → Option Nat) :
    ∀ (es : List Edge) (j : Nat) (ns : List Node),
      (∀ e ∈ es, ∃ a b, m e.source = some a ∧ m e.target = some b ∧
        a < ns.length ∧ b < ns.length) →
      ∃ ns1, crossLinkAll m j es ns = .ok ns1
  | [], j, ns, _ => ⟨ns, rfl⟩
  | e :: es, j, ns, h => by
    obtain ⟨a, b, ha, hb, hal, hbl⟩ := h e (List.mem_cons_self _ _)
    have hstep : crossLink m ns j e
        = .ok (List.modify (pushIncoming j a) b (List.modify (pushOutgoing j b) a ns)) := by
      simp [crossLink, resolve, ha, hb, hal, hbl]
    simp only [crossLinkAll, hstep]
    apply crossLinkAll_total m es (j + 1)
    intro e1 he1
    simpa using h e1 (List.mem_cons_of_mem _ he1)

theorem buildIdMap_of_not_mem :
    ∀ (ns : List Node) (i : Nat) (m : String → Option Nat) (k : String),
      (∀ n ∈ ns, n.id ≠ k) → buildIdMap i ns m k = m k
  | [], _, _, _, _ => rfl
  | n :: ns, i, m, k, h => by
    have hk : k ≠ n.id := fun hkn => h n (List.mem_cons_self _ _) hkn.symm
    rw [buildIdMap, buildIdMap_of_not_mem ns (i + 1) _ k
      (fun n1 hn1 => h n1 (List.mem_cons_of_mem _ hn1))]
    simp [hk]

theorem buildIdMap_of_mem :
    ∀ (ns : List Node) (i : Nat) (m : String → Option Nat) (k : String),
      (∃ n ∈ ns, n.id = k) →
      ∃ j n, ns[j]? = some n ∧ n.id = k ∧ buildIdMap i ns m k = some (i + j)
  | [], _, _, _, h => by simp at h
  | n :: ns, i, m, k, h => by
    by_cases htail : ∃ n1 ∈ ns, n1.id = k
    · obtain ⟨j, n1, hj, hid, hmap⟩ := buildIdMap_of_mem ns (i + 1)
        (fun k1 => if k1 = n.id then some i else m k1) k htail
      refine ⟨j + 1, n1, by simpa using hj, hid, ?_⟩
      rw [buildIdMap, hmap]
      congr 1
      omega
    · have hhead : n.id = k := by
        obtain ⟨n1, hn1, hid⟩ := h
        rcases List.mem_cons.mp hn1 with rfl | hmem
        · exact hid
        · exact absurd ⟨n1, hmem, hid⟩ htail
      refine ⟨0, n, by simp, hhead, ?_⟩
      rw [buildIdMap, buildIdMap_of_not_mem ns (i + 1) _ k
        (fun n1 hn1 hid => htail ⟨n1, hn1, hid⟩)]
      simp [hhead]

theorem idMap_some {ns : List Node} {k : String} {v : Nat}
    (h : buildIdMap 0 ns (fun _ => none) k = some v) :
    ∃ n, ns[v]? = some n ∧ n.id = k := by
  by_cases hmem : ∃ n ∈ ns, n.id = k
  · obtain ⟨j, n, hj, hid, hmap⟩ := buildIdMap_of_mem ns 0 (fun _ => none) k hmem
    rw [hmap] at h
    simp only [Nat.zero_add, Option.some.injEq] at h
    subst h
    exact ⟨n, hj, hid⟩
  · rw [buildIdMap_of_not_mem ns 0 _ k (fun n hn hid => hmem ⟨n, hn, hid⟩)] at h
    cases h

theorem idMap_of_nodup {ns : List Node} (hnd : (ns.map (fun n => n.id)).Nodup)
    {j : Nat} {n : Node} (hj : ns[j]? = some n) :
    buildIdMap 0 ns (fun _ => none) n.id = some j := by
  obtain ⟨j1, n1, hj1, hid, hmap⟩ :=
    buildIdMap_of_mem ns 0 (fun _ => none) n.id ⟨n, List.getElem?_mem hj, rfl⟩
  have e1 : (ns.map (fun n => n.id))[j1]? = some n.id := by simp [hj1, hid]
  have e2 : (ns.map (fun n => n.id))[j]? = some n.id := by simp [hj]
  have hlt1 : j1 < (ns.map (fun n => n.id)).length := by
    rcases List.getElem?_eq_some_iff.mp e1 with ⟨h, -⟩
    exact h
  have hlt : j < (ns.map (fun n => n.id)).length := by
    rcases List.getElem?_eq_some_iff.mp e2 with ⟨h, -⟩
    exact h
  have hget : (ns.map (fun n => n.id))[j1] = (ns.map (fun n => n.id))[j] := by
    rw [List.getElem?_eq_getElem hlt1] at e1
    rw [List.getElem?_eq_getElem hlt] at e2
    exact (Option.some.inj e1).trans (Option.some.inj e2).symm
  have hjj : j1 = j := (hnd.getElem_inj_iff).mp hget
  rw [hmap, hjj]
  simp

theorem findInputNode_some {ns : List Node} {k : Nat} {inp : Node}
    (h : findInputNode ns = some (k, inp)) : ns[k]? = some inp ∧ isInput inp = true := by
  unfold findInputNode at h
  have hmem := List.mem_of_mem_head? (Option.mem_def.mpr h)
  rw [List.mem_filter] at hmem
  exact ⟨List.mk_mem_enum_iff_getElem?.mp hmem.1, hmem.2⟩

theorem findInputNode_of_mem {ns : List Node} (h : ∃ n ∈ ns, isInput n = true) :
    ∃ k inp, findInputNode ns = some (k, inp) := by
  obtain ⟨n, hn, hin⟩ := h
  obtain ⟨i, hi⟩ := List.getElem?_of_mem hn
  have hmem : (i, n) ∈ ns.enum.filter (fun p => isInput p.2) :=
    List.mem_filter.mpr ⟨List.mk_mem_enum_iff_getElem?.mpr hi, hin⟩
  unfold findInputNode
  cases hf : ns.enum.filter (fun p => isInput p.2) with
  | nil => rw [hf] at hmem; cases hmem
  | cons p t => exact ⟨p.1, p.2, rfl⟩

theorem findInputNode_unique {ns : List Node} (hone : (ns.filter isInput).length = 1)
    {k : Nat} {inp : Node} (h : findInputNode ns = some (k, inp))
    {i : Nat} {n : Node} (hi : ns[i]? = some n) (hin : isInput n = true) : i = k := by
  have hlen : (ns.enum.filter (fun p => isInput p.2)).length = 1 := by
    have hmap : (ns.enum.filter (isInput ∘ Prod.snd)).map Prod.snd = ns.filter isInput := by
      rw [← List.filter_map, List.enum_map_snd]
    have := congrArg List.length hmap
    rw [List.length_map, hone] at this
    exact this
  have hmem : (i, n) ∈ ns.enum.filter (fun p => isInput p.2) :=
    List.mem_filter.mpr ⟨List.mk_mem_enum_iff_getElem?.mpr hi, hin⟩
  unfold findInputNode at h
  cases hf : ns.enum.filter (fun p => isInput p.2) with
  | nil => rw [hf] at hmem; cases hmem
  | cons p t =>
    rw [hf] at h hlen hmem
    have ht : t = [] := by
      cases t with
      | nil => rfl
      | cons q r => simp at hlen
    subst ht
    simp only [List.head?_cons, Option.some.injEq] at h
    subst h
    simp only [List.mem_singleton, Prod.mk.injEq] at hmem
    exact hmem.1

theorem processData_ok {self p : State} (h : processData self = .ok p) :
    ∃ k inp, findInputNode self.data.nodes = some (k, inp) ∧
      p.inputNode = some k ∧ p.jsondata = self.jsondata ∧ p.stats = self.stats ∧
      p.data.edges = self.data.edges.map stripEdge ∧
      ∀ i, p.data.nodes[i]?
        = (self.data.nodes[i]?).map (processedNode self.data k inp.attributes.nodeyear i) := by
  unfold processData at h
  cases hf : findInputNode self.data.nodes with
  | none => simp [hf] at h
  | some q =>
    obtain ⟨k, inp⟩ := q
    simp only [hf] at h
    cases hc : crossLinkAll (buildIdMap 0 self.data.nodes (fun _ => none)) 0 self.data.edges
        (List.modify pinInput k (self.data.nodes.map (initNode inp.attributes.nodeyear))) with
    | error err => simp [hc] at h
    | ok ns3 =>
      simp only [hc, Except.ok.injEq] at h
      subst h
      refine ⟨k, inp, rfl, rfl, rfl, rfl, rfl, fun i => ?_⟩
      simp only
      rw [crossLinkAll_getElem? _ _ _ _ _ hc i, List.getElem?_modify, List.getElem?_map]
      cases hn : self.data.nodes[i]? with
      | none => simp
      | some n =>
        by_cases hki : k = i <;> simp [processedNode, hki, List.enum_eq_enumFrom]

theorem processData_total {self : State} (hin : ∃ n ∈ self.data.nodes, isInput n = true)
    (hres : ∀ e ∈ self.data.edges,
      (∃ n ∈ self.data.nodes, n.id = e.source) ∧ (∃ n ∈ self.data.nodes, n.id = e.target)) :
    ∃ p, processData self = .ok p := by
  obtain ⟨k, inp, hf⟩ := findInputNode_of_mem hin
  have hall : ∀ e ∈ self.data.edges, ∃ a b,
      buildIdMap 0 self.data.nodes (fun _ => none) e.source = some a ∧
      buildIdMap 0 self.data.nodes (fun _ => none) e.target = some b ∧
      a < (List.modify pinInput k
        (self.data.nodes.map (initNode inp.attributes.nodeyear))).length ∧
      b < (List.modify pinInput k
        (self.data.nodes.map (initNode inp.attributes.nodeyear))).length := by
    intro e he
    obtain ⟨hs, ht⟩ := hres e he
    obtain ⟨a, na, ha, -, hma⟩ := buildIdMap_of_mem self.data.nodes 0 (fun _ => none) _ hs
    obtain ⟨b, nb, hb, -, hmb⟩ := buildIdMap_of_mem self.data.nodes 0 (fun _ => none) _ ht
    refine ⟨a, b, by simpa using hma, by simpa using hmb, ?_, ?_⟩
    · simpa using (List.getElem?_eq_some_iff.mp ha).1
    · simpa using (List.getElem?_eq_some_iff.mp hb).1
  obtain ⟨ns3, hc⟩ := crossLinkAll_total _ self.data.edges 0 _ hall
  exact ⟨{ self with
      inputNode := some k
      data := { nodes := ns3, edges := self.data.edges.map stripEdge } },
    by simp only [processData, hf, hc]⟩

theorem processData_unfold {self p : State} (h : processData self = .ok p) :
    ∃ k inp ns3, findInputNode self.data.nodes = some (k, inp) ∧
      crossLinkAll (buildIdMap 0 self.data.nodes (fun _ => none)) 0 self.data.edges
        (List.modify pinInput k (self.data.nodes.map (initNode inp.attributes.nodeyear)))
        = .ok ns3 ∧
      p.data.nodes = ns3 ∧ p.data.edges = self.data.edges.map stripEdge := by
  unfold processData at h
  cases hf : findInputNode self.data.nodes with
  | none => simp [hf] at h
  | some q =>
    obtain ⟨k, inp⟩ := q
    simp only [hf] at h
    cases hc : crossLinkAll (buildIdMap 0 self.data.nodes (fun _ => none)) 0 self.data.edges
        (List.modify pinInput k (self.data.nodes.map (initNode inp.attributes.nodeyear))) with
    | error err => simp [hc] at h
    | ok ns3 =>
      simp only [hc, Except.ok.injEq] at h
      subst h
      exact ⟨k, inp, ns3, rfl, hc, rfl, rfl⟩

theorem map_modify_of_eq {β : Type} (g : Node → β) (f : Node → Node) (hf : ∀ n, g (f n) = g n)
    (a : Nat) (ns : List Node) : (List.modify f a ns).map g = ns.map g := by
  apply List.ext_getElem?
  intro i
  rw [List.getElem?_map, List.getElem?_modify, List.getElem?_map]
  cases hn : ns[i]? with
  | none => simp
  | some n => by_cases hai : a = i <;> simp [hai, hf]

theorem sum_map_modify_succ (g : Node → Nat) (f : Node → Node) (hf : ∀ n, g (f n) = g n + 1) :
    ∀ (ns : List Node) (a : Nat), a < ns.length →
      ((List.modify f a ns).map g).sum = (ns.map g).sum + 1
  | [], _, h => by simp at h
  | n :: ns, 0, _ => by
    simp [List.modify, hf]
    omega
  | n :: ns, a + 1, h => by
    have ih := sum_map_modify_succ g f hf ns a (by simpa using h)
    simp only [List.modify_succ_cons, List.map_cons, List.sum_cons, ih]
    omega

theorem outDegree_pushOutgoing (j b : Nat) (n : Node) :
    outDegree (pushOutgoing j b n) = outDegree n + 1 := by
  simp [outDegree, pushOutgoing]

theorem outDegree_pushIncoming (j a : Nat) (n : Node) :
    outDegree (pushIncoming j a n) = outDegree n := by
  simp [outDegree, pushIncoming]

theorem inDegree_pushOutgoing (j b : Nat) (n : Node) :
    inDegree (pushOutgoing j b n) = inDegree n := by
  simp [inDegree, pushOutgoing]

theorem inDegree_pushIncoming (j a : Nat) (n : Node) :
    inDegree (pushIncoming j a n) = inDegree n + 1 := by
  simp [inDegree, pushIncoming]

theorem crossLinkAll_degrees (m : String → Option Nat) :
    ∀ (es : List Edge) (j : Nat) (ns ns1 : List Node),
      crossLinkAll m j es ns = .ok ns1 →
      (ns1.map outDegree).sum = (ns.map outDegree).sum + es.length ∧
      (ns1.map inDegree).sum = (ns.map inDegree).sum + es.length
  | [], j, ns, ns1, h => by
    simp only [crossLinkAll, Except.ok.injEq] at h
    subst h
    simp
  | e :: es, j, ns, ns1, h => by
    simp only [crossLinkAll] at h
    cases hstep : crossLink m ns j e with
    | error err => simp [hstep] at h
    | ok ns2 =>
      simp only [hstep] at h
      obtain ⟨ho, hi⟩ := crossLinkAll_degrees m es (j + 1) ns2 ns1 h
      obtain ⟨a, b, -, -, hal, hbl, rfl⟩ := crossLink_ok hstep
      rw [ho, hi, map_modify_of_eq outDegree _ (outDegree_pushIncoming j a),
        sum_map_modify_succ outDegree _ (outDegree_pushOutgoing j b) ns a hal,
        sum_map_modify_succ inDegree _ (inDegree_pushIncoming j a) _ b (by simpa using hbl),
        map_modify_of_eq inDegree _ (inDegree_pushOutgoing j b)]
      simp only [List.length_cons]
      omega

theorem crossLinkAll_resolved (m : String → Option Nat) :
    ∀ (es : List Edge) (j : Nat) (ns ns1 : List Node),
      crossLinkAll m j es ns = .ok ns1 →
      ∀ e ∈ es, ∃ a b, m e.source = some a ∧ m e.target = some b
  | [], _, _, _, _, e, he => by cases he
  | e0 :: es, j, ns, ns1, h, e, he => by
    simp only [crossLinkAll] at h
    cases hstep : crossLink m ns j e0 with
    | error err => simp [hstep] at h
    | ok ns2 =>
      simp only [hstep] at h
      rcases List.mem_cons.mp he with rfl | hmem
      · obtain ⟨a, b, ha, hb, -⟩ := crossLink_ok hstep
        exact ⟨a, b, ha, hb⟩
      · exact crossLinkAll_resolved m es (j + 1) ns2 ns1 h e hmem

theorem sum_degree_init (k : Nat) (y : Int) (ns : List Node) :
    ((List.modify pinInput k (ns.map (initNode y))).map outDegree).sum = 0 ∧
    ((List.modify pinInput k (ns.map (initNode y))).map inDegree).sum = 0 := by
  rw [map_modify_of_eq outDegree pinInput (fun n => rfl),
    map_modify_of_eq inDegree pinInput (fun n => rfl)]
  constructor <;> induction ns <;> simp_all [outDegree, inDegree, initNode]

theorem exists_input_of_oneInput {d : Data} (h : oneInput d) :
    ∃ n ∈ d.nodes, isInput n = true := by
  unfold oneInput at h
  cases hf : d.nodes.filter isInput with
  | nil => simp [hf] at h
  | cons n t =>
    have hmem : n ∈ d.nodes.filter isInput := by simp [hf]
    rw [List.mem_filter] at hmem
    exact ⟨n, hmem⟩

@[simp] theorem processedNode_id (d : Data) (k : Nat) (y : Int) (i : Nat) (n : Node) :
    (processedNode d k y i n).id = n.id := by
  unfold processedNode linkNode addLinks
  split <;> rfl

@[simp] theorem processedNode_attributes (d : Data) (k : Nat) (y : Int) (i : Nat) (n : Node) :
    (processedNode d k y i n).attributes = n.attributes := by
  unfold processedNode linkNode addLinks
  split <;> rfl

theorem processedNode_fz (d : Data) (k : Nat) (y : Int) (i : Nat) (n : Node) :
    (processedNode d k y i n).fz
      = if k = i then some 0 else some (yearOffset n.attributes.nodeyear y) := by
  unfold processedNode linkNode addLinks
  split <;> rfl

theorem processedNode_fx (d : Data) (k : Nat) (y : Int) (i : Nat) (n : Node) :
    (processedNode d k y i n).fx = if k = i then some 0 else n.fx := by
  unfold processedNode linkNode addLinks
  split <;> rfl

theorem processedNode_fy (d : Data) (k : Nat) (y : Int) (i : Nat) (n : Node) :
    (processedNode d k y i n).fy = if k = i then some 0 else n.fy := by
  unfold processedNode linkNode addLinks
  split <;> rfl

theorem processedNode_outgoingLinks (d : Data) (k : Nat) (y : Int) (i : Nat) (n : Node) :
    (processedNode d k y i n).outgoingLinks
      = some ((outEdges (buildIdMap 0 d.nodes (fun _ => none)) i d.edges.enum).map Prod.fst) := by
  unfold processedNode linkNode addLinks
  split <;> exact appendLinks_some_nil _

theorem processedNode_outgoingLinkTo (d : Data) (k : Nat) (y : Int) (i : Nat) (n : Node) :
    (processedNode d k y i n).outgoingLinkTo
      = some ((outEdges (buildIdMap 0 d.nodes (fun _ => none)) i d.edges.enum).map
          (fun p => (buildIdMap 0 d.nodes (fun _ => none) p.2.target).getD 0)) := by
  unfold processedNode linkNode addLinks
  split <;> exact appendLinks_some_nil _

theorem processedNode_incomingLinks (d : Data) (k : Nat) (y : Int) (i : Nat) (n : Node) :
    (processedNode d k y i n).incomingLinks
      = some ((inEdges (buildIdMap 0 d.nodes (fun _ => none)) i d.edges.enum).map Prod.fst) := by
  unfold processedNode linkNode addLinks
  split <;> exact appendLinks_some_nil _

theorem processedNode_incomingLinkFrom (d : Data) (k : Nat) (y : Int) (i : Nat) (n : Node) :
    (processedNode d k y i n).incomingLinkFrom
      = some ((inEdges (buildIdMap 0 d.nodes (fun _ => none)) i d.edges.enum).map
          (fun p => (buildIdMap 0 d.nodes (fun _ => none) p.2.source).getD 0)) := by
  unfold processedNode linkNode addLinks
  split <;> exact appendLinks_some_nil _

theorem yearOffset_ne_zero (a b : Int) : yearOffset a b ≠ 0 := by
  unfold yearOffset
  split <;> omega

theorem length_eq_of_getElem?_map {l1 l2 : List Node} {f : Nat → Node → Node}
    (h : ∀ i, l1[i]? = (l2[i]?).map (f i)) : l1.length = l2.length := by
  have hl : l1 = l2.enum.map (fun p => f p.1 p.2) := by
    apply List.ext_getElem?
    intro i
    rw [h i, List.getElem?_map, List.getElem?_enum]
    cases l2[i]? <;> simp
  rw [hl]
  simp

theorem filter_isInput_length {l1 l2 : List Node}
    (h : l1.map (fun n => n.attributes) = l2.map (fun n => n.attributes)) :
    (l1.filter isInput).length = (l2.filter isInput).length := by
  have key : ∀ l : List Node, (l.filter isInput).length
      = ((l.map (fun n => n.attributes)).filter (fun a => a.is_input_DOI == "True")).length := by
    intro l
    rw [List.filter_map, List.length_map]
    rfl
  rw [key l1, key l2, h]

theorem processedNode_atOrigin_iff (d : Data) (k : Nat) (y : Int) (i : Nat) (n : Node) :
    atOrigin (processedNode d k y i n) = true ↔ k = i := by
  unfold atOrigin
  rw [processedNode_fx, processedNode_fy, processedNode_fz]
  by_cases hki : k = i
  · simp [hki]
  · simp [hki, yearOffset_ne_zero]

theorem processedNode_fz_zero_iff (d : Data) (k : Nat) (y : Int) (i : Nat) (n : Node) :
    (processedNode d k y i n).fz = some 0 ↔ k = i := by
  rw [processedNode_fz]
  by_cases hki : k = i
  · simp [hki]
  · simp [hki, yearOffset_ne_zero]

theorem isInput_processedNode (d : Data) (k : Nat) (y : Int) (i : Nat) (n : Node) :
    isInput (processedNode d k y i n) = isInput n := by
  simp [isInput]

theorem enum_stripEdge_filter_source (es : List Edge) (s : String) :
    (((es.map stripEdge).enum.filter (fun q => q.2.source == s)).map Prod.fst)
      = ((es.enum.filter (fun q => q.2.source == s)).map Prod.fst) := by
  rw [List.enum_map, List.filter_map, List.map_map]
  rfl

theorem enum_stripEdge_filter_target (es : List Edge) (s : String) :
    (((es.map stripEdge).enum.filter (fun q => q.2.target == s)).map Prod.fst)
      = ((es.enum.filter (fun q => q.2.target == s)).map Prod.fst) := by
  rw [List.enum_map, List.filter_map, List.map_map]
  rfl

theorem idMap_eq_some_iff {ns : List Node} (hnd : (ns.map (fun n => n.id)).Nodup)
    {i : Nat} {n : Node} (hi : ns[i]? = some n) (key : String) :
    buildIdMap 0 ns (fun _ => none) key = some i ↔ key = n.id := by
  constructor
  · intro h
    obtain ⟨n1, hn1, hid⟩ := idMap_some h
    rw [hi] at hn1
    cases hn1
    exact hid.symm
  · rintro rfl
    exact idMap_of_nodup hnd hi

theorem outEdges_eq_filter {ns : List Node} (hnd : (ns.map (fun n => n.id)).Nodup)
    {i : Nat} {n : Node} (hi : ns[i]? = some n) (l : List (Nat × Edge)) :
    outEdges (buildIdMap 0 ns (fun _ => none)) i l = l.filter (fun q => q.2.source == n.id) := by
  unfold outEdges
  apply List.filter_congr
  intro q _
  have := idMap_eq_some_iff hnd hi q.2.source
  by_cases h : q.2.source = n.id <;> simp_all

theorem inEdges_eq_filter {ns : List Node} (hnd : (ns.map (fun n => n.id)).Nodup)
    {i : Nat} {n : Node} (hi : ns[i]? = some n) (l : List (Nat × Edge)) :
    inEdges (buildIdMap 0 ns (fun _ => none)) i l = l.filter (fun q => q.2.target == n.id) := by
  unfold inEdges
  apply List.filter_congr
  intro q _
  have := idMap_eq_some_iff hnd hi q.2.target
  by_cases h : q.2.target = n.id <;> simp_all

/-! ## Lemmas on getStats -/

theorem add_fin (a b : ℚ) : JSNum.add (.fin a) (.fin b) = .fin (a + b) := rfl

theorem div_fin_of_ne_nil (nodes : List Node) (hne : nodes ≠ []) (division : String) :
    JSNum.div (.fin (categoryCount nodes division)) (.fin nodes.length)
      = .fin (categoryFraction nodes division) := by
  have hlen : (nodes.length : ℚ) ≠ 0 := by
    have : nodes.length ≠ 0 := fun h => hne (List.length_eq_zero.mp h)
    exact_mod_cast this
  simp [JSNum.div, hlen, categoryFraction]

theorem foldl_statsStep (nodes : List Node) (hne : nodes ≠ []) :
    ∀ (ds : List String) (acc : List Bucket) (c : ℚ),
      ds.foldl (statsStep nodes) (acc, .fin c)
        = (acc ++ bucketsFrom nodes c ds, .fin (c + (ds.map (categoryFraction nodes)).sum))
  | [], acc, c => by simp [bucketsFrom]
  | d :: ds, acc, c => by
    rw [List.foldl_cons]
    have hstep : statsStep nodes (acc, .fin c) d
        = (acc ++ [{ category := d, value := .fin (categoryFraction nodes d), start := .fin c,
                     end_ := .fin (c + categoryFraction nodes d),
                     amount := categoryCount nodes d }],
           .fin (c + categoryFraction nodes d)) := by
      simp [statsStep, div_fin_of_ne_nil nodes hne, JSNum.add]
    rw [hstep, foldl_statsStep nodes hne ds]
    simp [bucketsFrom, add_assoc]

theorem buildStats_eq (nodes : List Node) (hne : nodes ≠ []) :
    buildStats nodes = bucketsFrom nodes 0 fieldOfResearchDivisions := by
  unfold buildStats
  rw [foldl_statsStep nodes hne]
  simp

theorem bucketsFrom_getElem? (nodes : List Node) :
    ∀ (ds : List String) (c : ℚ) (i : Nat),
      (bucketsFrom nodes c ds)[i]? = (ds[i]?).map (fun d =>
        { category := d
          value := .fin (categoryFraction nodes d)
          start := .fin (c + ((ds.take i).map (categoryFraction nodes)).sum)
          end_ := .fin (c + ((ds.take i).map (categoryFraction nodes)).sum
            + categoryFraction nodes d)
          amount := categoryCount nodes d })
  | [], c, i => by simp [bucketsFrom]
  | d :: ds, c, 0 => by simp [bucketsFrom]
  | d :: ds, c, i + 1 => by
    simp only [bucketsFrom, List.getElem?_cons_succ, List.take_succ_cons, List.map_cons,
      List.sum_cons]
    rw [bucketsFrom_getElem? nodes ds (c + categoryFraction nodes d) i]
    simp only [add_assoc]

theorem bucketsFrom_length (nodes : List Node) :
    ∀ (ds : List String) (c : ℚ), (bucketsFrom nodes c ds).length = ds.length
  | [], _ => rfl
  | d :: ds, c => by simp [bucketsFrom, bucketsFrom_length nodes ds]

theorem valueSum_bucketsFrom (nodes : List Node) :
    ∀ (ds : List String) (c s : ℚ),
      (bucketsFrom nodes c ds).foldl (fun (t : JSNum) (b : Bucket) => t.add b.value) (JSNum.fin s)
        = JSNum.fin (s + (ds.map (categoryFraction nodes)).sum)
  | [], c, s => by simp [bucketsFrom]
  | d :: ds, c, s => by
    simp only [bucketsFrom, List.foldl_cons, add_fin, List.map_cons, List.sum_cons]
    rw [valueSum_bucketsFrom nodes ds]
    simp only [add_assoc]

theorem foldl_statsStep_category (nodes : List Node) :
    ∀ (ds : List String) (acc : List Bucket × JSNum),
      (ds.foldl (statsStep nodes) acc).1.map (fun b => b.category)
        = acc.1.map (fun b => b.category) ++ ds
  | [], acc => by simp
  | d :: ds, acc => by
    rw [List.foldl_cons, foldl_statsStep_category nodes ds]
    simp [statsStep]

theorem buildStats_category (nodes : List Node) :
    (buildStats nodes).map (fun b => b.category) = fieldOfResearchDivisions := by
  unfold buildStats
  rw [foldl_statsStep_category]
  simp

theorem relabelEmpty_buildStats (nodes : List Node) :
    relabelEmpty (buildStats nodes) = .error JSError.TypeError := by
  have hnone : (buildStats nodes).findIdx? (fun stat => stat.category == "") = none := by
    rw [List.findIdx?_eq_none_iff]
    intro b hb
    have hmem : b.category ∈ fieldOfResearchDivisions := by
      rw [← buildStats_category nodes]
      exact List.mem_map_of_mem _ hb
    have hall : ∀ c ∈ fieldOfResearchDivisions, (c == "") = false := by decide
    exact hall _ hmem
  simp [relabelEmpty, hnone]

theorem bucketsFrom_take (nodes : List Node) :
    ∀ (ds : List String) (c : ℚ) (i : Nat),
      (bucketsFrom nodes c ds).take i = bucketsFrom nodes c (ds.take i)
  | [], c, i => by simp [bucketsFrom]
  | d :: ds, c, 0 => by simp [bucketsFrom]
  | d :: ds, c, i + 1 => by
    simp [bucketsFrom, bucketsFrom_take nodes ds]

theorem bucketsFrom_contiguous (nodes : List Node) :
    ∀ (ds : List String) (c : ℚ) (i : Nat) (b1 b2 : Bucket),
      (bucketsFrom nodes c ds)[i]? = some b1 → (bucketsFrom nodes c ds)[i + 1]? = some b2 →
      b1.end_ = b2.start
  | [], _, _, _, _, h, _ => by simp [bucketsFrom] at h
  | [d], _, 0, _, _, _, h => by simp [bucketsFrom] at h
  | d :: e :: ds, c, 0, b1, b2, h1, h2 => by
    simp only [bucketsFrom, List.getElem?_cons_zero, List.getElem?_cons_succ, zero_add,
      Option.some.injEq] at h1 h2
    subst h1 h2
    rfl
  | d :: ds, c, i + 1, b1, b2, h1, h2 => by
    simp only [bucketsFrom, List.getElem?_cons_succ] at h1 h2
    exact bucketsFrom_contiguous nodes ds _ i b1 b2 h1 h2

theorem sum_map_div (f : String → ℚ) (q : ℚ) :
    ∀ ds : List String, (ds.map (fun d => f d / q)).sum = (ds.map f).sum / q
  | [] => by simp
  | d :: ds => by simp [sum_map_div f q ds, add_div]

theorem sum_categoryCount (ds : List String)
    (hds : ∀ c ∈ ds, (ds.map (fun d => if some c = some d then 1 else 0)).sum = 1) :
    ∀ nodes : List Node, (∀ n ∈ nodes, ∃ c ∈ ds, n.attributes.category_for = some c) →
      (ds.map (categoryCount nodes)).sum = nodes.length
  | [], _ => by
    have hzero : categoryCount [] = fun _ => 0 := rfl
    rw [hzero]
    induction ds with
    | nil => rfl
    | cons d ds ih => simp
  | n :: ns, h => by
    obtain ⟨c, hc, hcat⟩ := h n (List.mem_cons_self _ _)
    have ih := sum_categoryCount ds hds ns (fun n1 hn1 => h n1 (List.mem_cons_of_mem _ hn1))
    have hsplit : ∀ d, categoryCount (n :: ns) d
        = (if some c = some d then 1 else 0) + categoryCount ns d := by
      intro d
      unfold categoryCount
      rw [List.filter_cons, hcat]
      by_cases hcd : c = d
      · subst hcd; simp; omega
      · simp [hcd]
    have hfun : categoryCount (n :: ns)
        = fun d => (if some c = some d then 1 else 0) + categoryCount ns d := funext hsplit
    rw [hfun, List.sum_map_add, hds c hc, ih, List.length_cons]
    omega

theorem fieldOfResearchDivisions_indicator :
    ∀ c ∈ fieldOfResearchDivisions,
      (fieldOfResearchDivisions.map (fun d => if some c = some d then 1 else 0)).sum = 1 := by
  decide

theorem sum_categoryFraction (nodes : List Node) (hne : nodes ≠ [])
    (hcodes : ∀ n ∈ nodes, ∃ c ∈ fieldOfResearchDivisions, n.attributes.category_for = some c) :
    (fieldOfResearchDivisions.map (categoryFraction nodes)).sum = 1 := by
  have hlen : (nodes.length : ℚ) ≠ 0 := by
    have : nodes.length ≠ 0 := fun h => hne (List.length_eq_zero.mp h)
    exact_mod_cast this
  have hsum := sum_categoryCount fieldOfResearchDivisions fieldOfResearchDivisions_indicator
    nodes hcodes
  have hcast : (fieldOfResearchDivisions.map (fun d => (categoryCount nodes d : ℚ))).sum
      = (nodes.length : ℚ) := by
    rw [← hsum]
    simp only [fieldOfResearchDivisions, List.map_cons, List.map_nil, List.sum_cons,
      List.sum_nil]
    push_cast
    ring
  have hfun : categoryFraction nodes
      = fun d => (fun d => (categoryCount nodes d : ℚ)) d / (nodes.length : ℚ) := rfl
  rw [hfun, sum_map_div, hcast, div_self hlen]

theorem bucketsFrom_getLast? (nodes : List Node) :
    ∀ (ds : List String) (c : ℚ), ds ≠ [] →
      ((bucketsFrom nodes c ds).getLast?).map (fun b => b.end_)
        = some (JSNum.fin (c + (ds.map (categoryFraction nodes)).sum))
  | [], _, h => absurd rfl h
  | [d], c, _ => by simp [bucketsFrom]
  | d :: e :: ds, c, _ => by
    have ih := bucketsFrom_getLast? nodes (e :: ds) (c + categoryFraction nodes d) (by simp)
    simp only [bucketsFrom, List.getLast?_cons_cons, List.map_cons, List.sum_cons] at ih ⊢
    rw [ih, add_assoc]

theorem buildStats_length (nodes : List Node) : (buildStats nodes).length = 23 := by
  have h := congrArg List.length (buildStats_category nodes)
  rw [List.length_map] at h
  exact h

theorem processData_nil {self : State} (h : self.data.nodes = []) :
    processData self = .error JSError.TypeError := by
  simp [processData, findInputNode, h]

theorem hundredNodes_codes :
    ∀ n ∈ hundredNodes, ∃ c ∈ fieldOfResearchDivisions, n.attributes.category_for = some c := by
  intro n hn
  unfold hundredNodes at hn
  rcases List.mem_append.mp hn with h | h
  · rw [List.eq_of_mem_replicate h]
    exact ⟨"00", by decide, rfl⟩
  · rw [List.eq_of_mem_replicate h]
    exact ⟨"01", by decide, rfl⟩

theorem getStats_error (self : State) : (getStats self).2 = .error JSError.TypeError := by
  cases hp : processData { self with data := self.jsondata } with
  | error err =>
    cases err
    simp only [getStats, hp]
  | ok p => simp only [getStats, hp, relabelEmpty_buildStats]

/-! ## Lemmas on repeated preprocessing -/

theorem findInputNode_none {ns : List Node} (h : ∀ n ∈ ns, isInput n = false) :
    findInputNode ns = none := by
  unfold findInputNode
  have hnil : ns.enum.filter (fun p => isInput p.2) = [] := by
    rw [List.filter_eq_nil_iff]
    intro p hp
    rw [h p.2 (List.snd_mem_of_mem_enum hp)]
    simp
  rw [hnil]
  rfl

theorem buildIdMap_congr :
    ∀ (ns1 ns2 : List Node) (i : Nat) (m : String → Option Nat),
      ns1.map (fun n => n.id) = ns2.map (fun n => n.id) →
      buildIdMap i ns1 m = buildIdMap i ns2 m
  | [], [], _, _, _ => rfl
  | [], _ :: _, _, _, h => by simp at h
  | _ :: _, [], _, _, h => by simp at h
  | a :: ns1, b :: ns2, i, m, h => by
    simp only [List.map_cons, List.cons.injEq] at h
    rw [buildIdMap, buildIdMap, h.1]
    exact buildIdMap_congr ns1 ns2 (i + 1) _ h.2

theorem enum_map_enum (l : List Node) (g : Nat → Node → Node) :
    (l.enum.map (fun q => g q.1 q.2)).enum = l.enum.map (fun q => (q.1, g q.1 q.2)) := by
  apply List.ext_getElem?
  intro i
  rw [List.getElem?_enum, List.getElem?_map, List.getElem?_map, List.getElem?_enum]
  cases l[i]? <;> simp

theorem findInputNode_map (l : List Node) (g : Nat → Node → Node)
    (hg : ∀ i n, isInput (g i n) = isInput n) :
    findInputNode (l.enum.map (fun q => g q.1 q.2))
      = (findInputNode l).map (fun q => (q.1, g q.1 q.2)) := by
  unfold findInputNode
  rw [enum_map_enum, List.filter_map, List.head?_map]
  congr 2
  apply List.filter_congr
  intro q _
  exact hg q.1 q.2

theorem eq_enum_map_of_getElem? {l1 l2 : List Node} {f : Nat → Node → Node}
    (h : ∀ i, l1[i]? = (l2[i]?).map (f i)) : l1 = l2.enum.map (fun q => f q.1 q.2) := by
  apply List.ext_getElem?
  intro i
  rw [h i, List.getElem?_map, List.getElem?_enum]
  cases l2[i]? <;> simp

theorem stripEdge_stripEdge (e : Edge) : stripEdge (stripEdge e) = stripEdge e := rfl

theorem linkNode_stripEdge (m : String → Option Nat) (es : List Edge) (i : Nat) (n : Node) :
    linkNode m (es.map stripEdge).enum i n = linkNode m es.enum i n := by
  have hout : outEdges m i (es.map stripEdge).enum
      = (outEdges m i es.enum).map (Prod.map id stripEdge) := by
    unfold outEdges
    rw [List.enum_map, List.filter_map]
    rfl
  have hin : inEdges m i (es.map stripEdge).enum
      = (inEdges m i es.enum).map (Prod.map id stripEdge) := by
    unfold inEdges
    rw [List.enum_map, List.filter_map]
    rfl
  unfold linkNode
  rw [hout, hin]
  simp only [List.map_map]
  rfl

theorem initNode_addLinks (y : Int) (n : Node) (o ot i ifr : List Nat) :
    initNode y (addLinks n o ot i ifr) = initNode y n := rfl

theorem initNode_initNode (y : Int) (n : Node) : initNode y (initNode y n) = initNode y n := rfl

theorem pinInput_initNode_pinInput (y : Int) (n : Node) :
    pinInput (initNode y (pinInput (initNode y n))) = pinInput (initNode y n) := rfl

theorem processedNode_processedNode (d1 d2 : Data) (k : Nat) (y : Int) (i : Nat) (n : Node)
    (hm : buildIdMap 0 d2.nodes (fun _ => none) = buildIdMap 0 d1.nodes (fun _ => none))
    (he : d2.edges = d1.edges.map stripEdge) :
    processedNode d2 k y i (processedNode d1 k y i n) = processedNode d1 k y i n := by
  unfold processedNode
  rw [hm, he, linkNode_stripEdge]
  by_cases hki : k = i
  · simp only [hki, if_true]
    unfold linkNode
    rw [initNode_addLinks, pinInput_initNode_pinInput]
  · simp only [hki, if_false]
    unfold linkNode
    rw [initNode_addLinks, initNode_initNode]

theorem State.eq_of_fields {s t : State} (h1 : s.jsondata = t.jsondata)
    (h2 : s.data.nodes = t.data.nodes) (h3 : s.data.edges = t.data.edges)
    (h4 : s.inputNode = t.inputNode) (h5 : s.stats = t.stats) : s = t := by
  obtain ⟨sj, ⟨sn, se⟩, si, ss⟩ := s
  obtain ⟨tj, ⟨tn, te⟩, ti, ts⟩ := t
  simp only at h1 h2 h3 h4 h5
  subst h1 h2 h3 h4 h5
  rfl

theorem processData_twice {self p : State} (h : processData self = .ok p) :
    processData p = .ok p := by
  obtain ⟨k, inp, hf, hk, hjson, hstats, hedges, hidx⟩ := processData_ok h
  obtain ⟨k0, inp0, ns3, hf0, hc, -, -⟩ := processData_unfold h
  obtain ⟨hkinp, hinp⟩ := findInputNode_some hf
  have hres := crossLinkAll_resolved _ _ _ _ _ hc
  have hnodes := eq_enum_map_of_getElem? hidx
  have hids : p.data.nodes.map (fun n => n.id) = self.data.nodes.map (fun n => n.id) := by
    apply List.ext_getElem?
    intro i
    rw [List.getElem?_map, List.getElem?_map, hidx i]
    cases self.data.nodes[i]? <;> simp
  have hm := buildIdMap_congr _ _ 0 (fun _ => none) hids
  have hfp : findInputNode p.data.nodes
      = some (k, processedNode self.data k inp.attributes.nodeyear k inp) := by
    rw [hnodes, findInputNode_map _ _ (fun i n => isInput_processedNode _ _ _ i n), hf]
    rfl
  have hin : ∃ n ∈ p.data.nodes, isInput n = true := by
    obtain ⟨hkn, hflag⟩ := findInputNode_some hfp
    exact ⟨_, List.getElem?_mem hkn, hflag⟩
  have hresolv : ∀ e ∈ p.data.edges,
      (∃ n ∈ p.data.nodes, n.id = e.source) ∧ (∃ n ∈ p.data.nodes, n.id = e.target) := by
    intro e he
    rw [hedges, List.mem_map] at he
    obtain ⟨e0, he0, rfl⟩ := he
    obtain ⟨a, b, ha, hb⟩ := hres e0 he0
    obtain ⟨na, hna, hida⟩ := idMap_some ha
    obtain ⟨nb, hnb, hidb⟩ := idMap_some hb
    constructor
    · have hget : p.data.nodes[a]?
          = some (processedNode self.data k inp.attributes.nodeyear a na) := by
        rw [hidx a, hna]
        rfl
      exact ⟨_, List.getElem?_mem hget, by simpa using hida⟩
    · have hget : p.data.nodes[b]?
          = some (processedNode self.data k inp.attributes.nodeyear b nb) := by
        rw [hidx b, hnb]
        rfl
      exact ⟨_, List.getElem?_mem hget, by simpa using hidb⟩
  obtain ⟨p2, hp2⟩ := processData_total hin hresolv
  obtain ⟨k2, inp2, hf2, hk2, hjson2, hstats2, hedges2, hidx2⟩ := processData_ok hp2
  rw [hfp] at hf2
  simp only [Option.some.injEq, Prod.mk.injEq] at hf2
  obtain ⟨hkk, hinp2⟩ := hf2
  subst hkk
  subst hinp2
  rw [hp2]
  congr 1
  apply State.eq_of_fields hjson2
  · apply List.ext_getElem?
    intro i
    rw [hidx2 i, hidx i]
    cases self.data.nodes[i]? with
    | none => rfl
    | some n =>
      simp only [Option.map_some', processedNode_attributes]
      rw [processedNode_processedNode self.data p.data k _ i n hm hedges]
  · rw [hedges2, hedges, List.map_map]
    congr 1
  · rw [hk2, hk]
  · exact hstats2

/-! ## Lemmas on the toggles -/

theorem toggleEdgesOnlyInput_on {v : View} (h : v.edgesOnlyInput = true) :
    toggleEdgesOnlyInput v
      = .ok { v with graph := { nodes := v.net.data.nodes, links := v.net.data.edges }
                     edgesOnlyInput := false } := by
  simp [toggleEdgesOnlyInput, h]

theorem toggleEdgesOnlyInput_off {v : View} {k : Nat} {inp : Node}
    (h : v.edgesOnlyInput = false) (hk : v.net.inputNode = some k)
    (hinp : v.net.data.nodes[k]? = some inp) :
    toggleEdgesOnlyInput v
      = .ok { v with
              graph := { nodes := v.net.data.nodes
                         links := v.net.data.edges.filter
                           (fun edge => edge.source == inp.id || edge.target == inp.id) }
              edgesOnlyInput := true } := by
  unfold toggleEdgesOnlyInput
  simp only [h, hk, Option.some_bind, hinp]
  cases hE : v.net.data.edges with
  | nil => simp
  | cons e es => simp

/-! ## Lemmas on the strength function -/

theorem strengthFunc_eq (pow : JSNum → JSNum → JSNum) (a b mn mx : ℚ) (exp : JSNum)
    (node : Node) (hne : mn ≠ mx) :
    strengthFuncFactory pow (.fin a) (.fin b) (.fin mn) (.fin mx) exp node
      = if interpolate a b mn mx node.attributes.refByCount ≤ a then .fin a
        else if b ≤ interpolate a b mn mx node.attributes.refByCount then .fin b
        else pow (.fin (interpolate a b mn mx node.attributes.refByCount)) exp := by
  have hd0 : mx + -mn ≠ 0 := by
    rw [← sub_eq_add_neg]
    exact sub_ne_zero.mpr (Ne.symm hne)
  have hout : (JSNum.fin a).add
        ((((JSNum.fin node.attributes.refByCount).sub (.fin mn)).mul
          ((JSNum.fin b).sub (.fin a))).div ((JSNum.fin mx).sub (.fin mn)))
      = .fin (interpolate a b mn mx node.attributes.refByCount) := by
    simp only [JSNum.sub, JSNum.neg, JSNum.add, JSNum.mul, JSNum.div, hd0, if_false,
      interpolate, sub_eq_add_neg]
  simp only [strengthFuncFactory, hout, JSNum.le, JSNum.ge, decide_eq_true_eq]

theorem interpolate_mono (maxStrength mn mx x y : ℚ) (hmm : mn < mx) (h0 : 0 ≤ maxStrength)
    (hxy : x ≤ y) : interpolate 0 maxStrength mn mx x ≤ interpolate 0 maxStrength mn mx y := by
  unfold interpolate
  have hd : 0 < mx - mn := sub_pos.mpr hmm
  have hnum : (x - mn) * (maxStrength - 0) ≤ (y - mn) * (maxStrength - 0) :=
    mul_le_mul_of_nonneg_right (by linarith) (by linarith)
  have := div_le_div_of_nonneg_right hnum (le_of_lt hd)
  linarith

theorem powNat_fin (n : Nat) (q : ℚ) (exp : JSNum) : powNat n (.fin q) exp = .fin (q ^ n) := by
  induction n with
  | zero => simp [powNat]
  | succ k ih => simp [powNat, ih, JSNum.mul, pow_succ]

theorem powNat_unit (n : Nat) (hn : 1 ≤ n) (exp : JSNum) (q : ℚ) (h0 : 0 ≤ q) (h1 : q ≤ 1) :
    ∃ r : ℚ, powNat n (.fin q) exp = .fin r ∧ 0 ≤ r ∧ r ≤ q :=
  ⟨q ^ n, powNat_fin n q exp, pow_nonneg h0 n, by
    calc q ^ n ≤ q ^ 1 := pow_le_pow_of_le_one h0 h1 hn
      _ = q := pow_one q⟩

theorem powNat_mono (n : Nat) (exp : JSNum) (q1 q2 r1 r2 : ℚ) (h0 : 0 ≤ q1) (h12 : q1 ≤ q2)
    (e1 : powNat n (.fin q1) exp = .fin r1) (e2 : powNat n (.fin q2) exp = .fin r2) :
    r1 ≤ r2 := by
  rw [powNat_fin] at e1 e2
  cases e1
  cases e2
  exact pow_le_pow_left₀ h0 h12 n

/-! ## Preprocessing: claims C1 to C4 -/

/-- C5: for a non-empty node list, the array `this.stats` built by the loop of
`getStats` has one bucket per fixed code, in the order of the 23 codes, with `amount`
the number of nodes carrying the code, `value = amount / totalNodes`, `start` the sum
of `value` over the earlier buckets (equivalently the sum of the earlier codes'
fractions) and `end = start + value`. -/
theorem buildStats_buckets (nodes : List Node) (hne : nodes ≠ []) :
    (buildStats nodes).length = 23 ∧
    ∀ (i : Nat) (code : String), fieldOfResearchDivisions[i]? = some code →
      ∃ b : Bucket, (buildStats nodes)[i]? = some b ∧ b.category = code ∧
        b.amount = categoryCount nodes code ∧
        b.value = JSNum.fin ((b.amount : ℚ) / (nodes.length : ℚ)) ∧
        b.start = valueSum ((buildStats nodes).take i) ∧
        b.start = JSNum.fin (((fieldOfResearchDivisions.take i).map
          (fun c => (categoryCount nodes c : ℚ) / (nodes.length : ℚ))).sum) ∧
        b.end_ = b.start.add b.value := by
  refine ⟨buildStats_length nodes, ?_⟩
  intro i code hcode
  rw [buildStats_eq nodes hne, bucketsFrom_getElem?, hcode, bucketsFrom_take]
  refine ⟨_, rfl, rfl, rfl, rfl, ?_, ?_, ?_⟩
  · simp only [valueSum]
    rw [valueSum_bucketsFrom]
  · simp only [zero_add]
    rfl
  · simp only [add_fin]

/-- C5, on the specification's example of 100 nodes split evenly over the codes 00
and 01: both buckets have `value = 1/2`, with spans `[0, 1/2]` and `[1/2, 1]`. -/
theorem buildStats_buckets_witness :
    hundredNodes ≠ [] ∧
    (∃ b : Bucket, (buildStats hundredNodes)[0]? = some b ∧ b.category = "00" ∧
      b.amount = 50 ∧ b.value = JSNum.fin (1 / 2) ∧ b.start = JSNum.fin 0 ∧
      b.end_ = JSNum.fin (1 / 2)) ∧
    (∃ b : Bucket, (buildStats hundredNodes)[1]? = some b ∧ b.category = "01" ∧
      b.amount = 50 ∧ b.value = JSNum.fin (1 / 2) ∧ b.start = JSNum.fin (1 / 2) ∧
      b.end_ = JSNum.fin 1) ∧
    (∀ (i : Nat) (code : String), 2 ≤ i → fieldOfResearchDivisions[i]? = some code →
      ∃ b : Bucket, (buildStats hundredNodes)[i]? = some b ∧ b.category = code ∧
        b.amount = 0 ∧ b.value = JSNum.fin 0) := by
  have hne : hundredNodes ≠ [] := by decide
  have hlen : hundredNodes.length = 100 := by decide
  have h00 : categoryCount hundredNodes "00" = 50 := by decide
  have h01 : categoryCount hundredNodes "01" = 50 := by decide
  have hrest : ∀ c ∈ fieldOfResearchDivisions.drop 2, categoryCount hundredNodes c = 0 := by
    decide
  refine ⟨hne, ?_, ?_, ?_⟩
  · obtain ⟨b, hb, hcat, ham, hval, -, hstart, hend⟩ :=
      (buildStats_buckets hundredNodes hne).2 0 "00" (by decide)
    rw [h00] at ham
    rw [ham, hlen] at hval
    have hstart0 : b.start = JSNum.fin 0 := by rw [hstart]; simp
    have hval2 : b.value = JSNum.fin (1 / 2) := by rw [hval]; norm_num
    refine ⟨b, hb, hcat, ham, hval2, hstart0, ?_⟩
    rw [hend, hstart0, hval2, add_fin]; norm_num
  · obtain ⟨b, hb, hcat, ham, hval, -, hstart, hend⟩ :=
      (buildStats_buckets hundredNodes hne).2 1 "01" (by decide)
    rw [h01] at ham
    rw [ham, hlen] at hval
    have hstart1 : b.start = JSNum.fin (1 / 2) := by
      rw [hstart]
      simp [fieldOfResearchDivisions, h00, hlen]
      norm_num
    have hval2 : b.value = JSNum.fin (1 / 2) := by rw [hval]; norm_num
    refine ⟨b, hb, hcat, ham, hval2, hstart1, ?_⟩
    rw [hend, hstart1, hval2, add_fin]; norm_num
  · intro i code hi hcode
    obtain ⟨b, hb, hcat, ham, hval, -, -, -⟩ :=
      (buildStats_buckets hundredNodes hne).2 i code hcode
    have hidx : (fieldOfResearchDivisions.drop 2)[i - 2]? = some code := by
      rw [List.getElem?_drop, ← hcode]
      congr 1
      omega
    have hmem : code ∈ fieldOfResearchDivisions.drop 2 := List.getElem?_mem hidx
    rw [hrest code hmem] at ham
    rw [ham] at hval
    exact ⟨b, hb, hcat, ham, by rw [hval]; simp⟩

/-- C6, as stated, fails: a single node without a field-of-research code is a
non-empty node set whose 23 fractions sum to 0, and the last bucket ends at 0. -/
theorem buildStats_fractions_counterexample :
    [nodeOfCategory "n" none] ≠ [] ∧
    valueSum (buildStats [nodeOfCategory "n" none]) = JSNum.fin 0 ∧
    valueSum (buildStats [nodeOfCategory "n" none]) ≠ JSNum.fin 1 ∧
    ((buildStats [nodeOfCategory "n" none]).getLast?).map (fun b => b.end_)
      = some (JSNum.fin 0) := by
  have hne : [nodeOfCategory "n" none] ≠ [] := by decide
  have hzero : (fieldOfResearchDivisions.map
      (categoryFraction [nodeOfCategory "n" none])).sum = 0 := by
    have hfun : categoryFraction [nodeOfCategory "n" none] = fun _ => 0 := by
      funext d
      simp [categoryFraction, categoryCount, nodeOfCategory]
    rw [hfun]
    simp [fieldOfResearchDivisions]
  have hsum : valueSum (buildStats [nodeOfCategory "n" none]) = JSNum.fin 0 := by
    rw [buildStats_eq _ hne, valueSum, valueSum_bucketsFrom, hzero]
    simp
  refine ⟨hne, hsum, ?_, ?_⟩
  · rw [hsum]
    simp
  · rw [buildStats_eq _ hne, bucketsFrom_getLast? _ _ _ (by decide), hzero]
    simp

/-- C6, amended: for a non-empty node list in which every node carries one of the 23
fixed codes, the `value` fields of the buckets sum to 1 in exact arithmetic and the
last bucket ends at 1. -/
theorem buildStats_fractions_sum (nodes : List Node) (hne : nodes ≠ [])
    (hcodes : ∀ n ∈ nodes, ∃ c ∈ fieldOfResearchDivisions, n.attributes.category_for = some c) :
    valueSum (buildStats nodes) = JSNum.fin 1 ∧
    ((buildStats nodes).getLast?).map (fun b => b.end_) = some (JSNum.fin 1) := by
  have hsum := sum_categoryFraction nodes hne hcodes
  constructor
  · rw [buildStats_eq nodes hne, valueSum, valueSum_bucketsFrom, hsum]
    simp
  · rw [buildStats_eq nodes hne, bucketsFrom_getLast? _ _ _ (by decide), hsum]
    simp

/-- C6, amended, on the 100-node example. -/
theorem buildStats_fractions_sum_witness :
    hundredNodes ≠ [] ∧
    (∀ n ∈ hundredNodes, ∃ c ∈ fieldOfResearchDivisions, n.attributes.category_for = some c) ∧
    valueSum (buildStats hundredNodes) = JSNum.fin 1 ∧
    ((buildStats hundredNodes).getLast?).map (fun b => b.end_) = some (JSNum.fin 1) :=
  ⟨by decide, hundredNodes_codes,
    buildStats_fractions_sum hundredNodes (by decide) hundredNodes_codes⟩

/-- C7: for a non-empty node list the first bucket starts at 0 and consecutive buckets
are contiguous: for every `i` from 0 to 21 the end of bucket `i` is the start of
bucket `i + 1`. -/
theorem buildStats_contiguous (nodes : List Node) (hne : nodes ≠ []) :
    (∃ b0 : Bucket, (buildStats nodes)[0]? = some b0 ∧ b0.start = JSNum.fin 0) ∧
    ∀ i : Nat, i ≤ 21 →
      ∃ b1 b2 : Bucket, (buildStats nodes)[i]? = some b1 ∧
        (buildStats nodes)[i + 1]? = some b2 ∧ b1.end_ = b2.start := by
  rw [buildStats_eq nodes hne]
  have hlen : (bucketsFrom nodes 0 fieldOfResearchDivisions).length = 23 := by
    rw [bucketsFrom_length]
    rfl
  constructor
  · rw [bucketsFrom_getElem?]
    exact ⟨_, rfl, by simp⟩
  · intro i hi
    cases h1 : (bucketsFrom nodes 0 fieldOfResearchDivisions)[i]? with
    | none =>
      have := List.getElem?_eq_none_iff.mp h1
      omega
    | some b1 =>
      cases h2 : (bucketsFrom nodes 0 fieldOfResearchDivisions)[i + 1]? with
      | none =>
        have := List.getElem?_eq_none_iff.mp h2
        omega
      | some b2 =>
        exact ⟨b1, b2, rfl, rfl, bucketsFrom_contiguous nodes _ _ i b1 b2 h1 h2⟩

/-- C7, on the 100-node example. -/
theorem buildStats_contiguous_witness :
    hundredNodes ≠ [] ∧
    (∃ b0 : Bucket, (buildStats hundredNodes)[0]? = some b0 ∧ b0.start = JSNum.fin 0) ∧
    ∀ i : Nat, i ≤ 21 →
      ∃ b1 b2 : Bucket, (buildStats hundredNodes)[i]? = some b1 ∧
        (buildStats hundredNodes)[i + 1]? = some b2 ∧ b1.end_ = b2.start :=
  ⟨by decide, buildStats_contiguous hundredNodes (by decide)⟩

/-- C8: `getStats` never returns: it always raises a `TypeError`. On the
specification's two-node example `processData` succeeds and the 23 buckets are built
and stored in `this.stats` with the codes as categories; none of them is the empty
string, so the relabelling statement assigns `.category` on `undefined` and throws. -/
theorem getStats_throws :
    (∀ self : State, (getStats self).2 = .error JSError.TypeError) ∧
    (∃ p, processData { exampleAB with data := exampleAB.jsondata } = .ok p ∧
      (getStats exampleAB).1.stats = buildStats p.data.nodes) ∧
    (getStats exampleAB).1.stats.map (fun b => b.category) = fieldOfResearchDivisions ∧
    (getStats exampleAB).2 = .error JSError.TypeError := by
  have hall : ∀ self : State, (getStats self).2 = .error JSError.TypeError :=
    getStats_error
  obtain ⟨p, hp⟩ : ∃ p, processData { exampleAB with data := exampleAB.jsondata } = .ok p :=
    ⟨_, rfl⟩
  have hstats : (getStats exampleAB).1.stats = buildStats p.data.nodes := by
    simp only [getStats, hp, relabelEmpty_buildStats]
  exact ⟨hall, ⟨p, hp, hstats⟩, by rw [hstats]; exact buildStats_category _, hall exampleAB⟩

/-- C9, as stated, fails: on an empty payload `getStats` raises the `TypeError` of
`processData` (no input node), and the bucket loop has no guard: run on an empty node
list, it divides by zero and every bucket gets the value `NaN`. -/
theorem getStats_empty_counterexample :
    processData { emptyState with data := emptyState.jsondata } = .error JSError.TypeError ∧
    (getStats emptyState).2 = .error JSError.TypeError ∧
    (buildStats []).length = 23 ∧
    ∀ b ∈ buildStats [], b.value = JSNum.nan := by
  refine ⟨rfl, rfl, rfl, ?_⟩
  decide

/-- C9, amended: on a payload without nodes `getStats` fails with the `TypeError`
that `processData` raises because there is no input node; the bucket loop is not
reached, so `this.stats` is left as it was and no bucket is produced. -/
theorem getStats_empty (self : State) (hnil : self.jsondata.nodes = []) :
    processData { self with data := self.jsondata } = .error JSError.TypeError ∧
    (getStats self).2 = .error JSError.TypeError ∧
    (getStats self).1.stats = self.stats := by
  have hp : processData { self with data := self.jsondata } = .error JSError.TypeError :=
    processData_nil hnil
  refine ⟨hp, ?_, ?_⟩
  · simp only [getStats, hp]
  · simp only [getStats, hp]

/-- C9, amended, on the empty payload. -/
theorem getStats_empty_witness :
    emptyState.jsondata.nodes = [] ∧
    processData { emptyState with data := emptyState.jsondata } = .error JSError.TypeError ∧
    (getStats emptyState).2 = .error JSError.TypeError ∧
    (getStats emptyState).1.stats = emptyState.stats :=
  ⟨rfl, getStats_empty emptyState rfl⟩

/-! ## Layout strength: claim C10 -/

/-- C17: for a dataset in which no node carries the input flag, `processData` raises
(a `TypeError`, from the first access through the undefined input node) and returns no
processed graph; and whenever `processData` does return, `this.inputNode` is a node of
the result. -/
theorem processData_no_input (self : State)
    (hnone : ∀ n ∈ self.data.nodes, isInput n = false) :
    processData self = .error JSError.TypeError ∧
    (∀ p, processData self ≠ .ok p) ∧
    (∀ (t p : State), processData t = .ok p →
      ∃ (k : Nat) (n : Node), p.inputNode = some k ∧ p.data.nodes[k]? = some n) := by
  have herr : processData self = .error JSError.TypeError := by
    simp only [processData, findInputNode_none hnone]
  refine ⟨herr, ?_, ?_⟩
  · intro p hp
    rw [herr] at hp
    cases hp
  · intro t p hp
    obtain ⟨k, inp, hf, hk, -, -, -, hidx⟩ := processData_ok hp
    obtain ⟨hkinp, -⟩ := findInputNode_some hf
    exact ⟨k, _, hk, by rw [hidx k, hkinp]; rfl⟩

/-- C17, on a payload holding a single unflagged node. -/
theorem processData_no_input_witness :
    (∀ n ∈ ({ emptyState with data := ⟨[nodeOfCount 3], []⟩ } : State).data.nodes,
      isInput n = false) ∧
    processData { emptyState with data := ⟨[nodeOfCount 3], []⟩ }
      = .error JSError.TypeError ∧
    (∀ p, processData { emptyState with data := ⟨[nodeOfCount 3], []⟩ } ≠ .ok p) ∧
    (∀ (t p : State), processData t = .ok p →
      ∃ (k : Nat) (n : Node), p.inputNode = some k ∧ p.data.nodes[k]? = some n) :=
  ⟨by decide, processData_no_input _ (by decide)⟩

/-- C14: on a processed graph (the input node is a node of `data.nodes`) and from
either flag state, two calls of `toggleEdgesOnlyInput` complete, leave `this.data`
unchanged after each call and restore the flag; each call that ends with the flag off
passes the full edge list `data.edges`, unchanged and in order, to the renderer. From
the off state that is the second call, whose `graphData` is the full node and edge
lists. -/
theorem toggleEdgesOnlyInput_twice (v : View) (k : Nat) (inp : Node)
    (hk : v.net.inputNode = some k) (hinp : v.net.data.nodes[k]? = some inp) :
    ∃ v1 v2, toggleEdgesOnlyInput v = .ok v1 ∧ toggleEdgesOnlyInput v1 = .ok v2 ∧
      v1.net = v.net ∧ v2.net = v.net ∧
      v1.edgesOnlyInput = !v.edgesOnlyInput ∧
      v2.edgesOnlyInput = v.edgesOnlyInput ∧
      (v1.edgesOnlyInput = false → v1.graph.links = v.net.data.edges) ∧
      (v2.edgesOnlyInput = false →
        v2.graph.links = v.net.data.edges ∧ v2.graph.nodes = v.net.data.nodes) := by
  cases hflag : v.edgesOnlyInput with
  | true =>
    have h1 := toggleEdgesOnlyInput_on hflag
    refine ⟨_, _, h1, toggleEdgesOnlyInput_off rfl hk hinp, rfl, rfl, rfl, rfl, ?_, ?_⟩
    · intro _
      rfl
    · intro hcontra
      cases hcontra
  | false =>
    have h1 := toggleEdgesOnlyInput_off hflag hk hinp
    refine ⟨_, _, h1, toggleEdgesOnlyInput_on rfl, rfl, rfl, rfl, rfl, ?_, ?_⟩
    · intro hcontra
      cases hcontra
    · intro _
      exact ⟨rfl, rfl⟩

/-- C14, on the three-node example, starting with the flag off. -/
theorem toggleEdgesOnlyInput_twice_witness :
    exampleView.net.inputNode = some 2 ∧
    exampleView.net.data.nodes[2]? = some ((exampleView.net.data.nodes[2]?).getD (nodeOfCount 0)) ∧
    ∃ v1 v2, toggleEdgesOnlyInput exampleView = .ok v1 ∧ toggleEdgesOnlyInput v1 = .ok v2 ∧
      v1.net = exampleView.net ∧ v2.net = exampleView.net ∧
      v1.edgesOnlyInput = !exampleView.edgesOnlyInput ∧
      v2.edgesOnlyInput = exampleView.edgesOnlyInput ∧
      (v1.edgesOnlyInput = false → v1.graph.links = exampleView.net.data.edges) ∧
      (v2.edgesOnlyInput = false →
        v2.graph.links = exampleView.net.data.edges ∧
        v2.graph.nodes = exampleView.net.data.nodes) :=
  ⟨rfl, rfl, toggleEdgesOnlyInput_twice exampleView 2 _ rfl rfl⟩

/-- C11, as stated, fails: with `minStrength = 2`, `maxStrength = 3`, `min = 0`,
`max = 2` and exponent 2, the counts 1 and 2 lie in `[min, max]` and `1 <= 2`, yet the
strength is `2.5 ** 2 = 6.25` at count 1 and `3` at count 2. -/
theorem strengthFunc_monotone_counterexample :
    (0 : ℚ) < 2 ∧ (2 : ℚ) ≤ 3 ∧ (1 : ℚ) ≤ 2 ∧
    (nodeOfCount 1).attributes.refByCount ≤ (nodeOfCount 2).attributes.refByCount ∧
    strengthFuncFactory (powNat 2) (.fin 2) (.fin 3) (.fin 0) (.fin 2) (.fin 2) (nodeOfCount 1)
      = .fin (25 / 4) ∧
    strengthFuncFactory (powNat 2) (.fin 2) (.fin 3) (.fin 0) (.fin 2) (.fin 2) (nodeOfCount 2)
      = .fin 3 ∧
    JSNum.le (.fin (25 / 4)) (.fin 3) = false := by
  refine ⟨by norm_num, by norm_num, by norm_num, by norm_num [nodeOfCount], ?_, ?_, ?_⟩
  · rw [strengthFunc_eq _ _ _ _ _ _ _ (by norm_num), powNat_fin]
    norm_num [interpolate, nodeOfCount]
  · rw [strengthFunc_eq _ _ _ _ _ _ _ (by norm_num)]
    norm_num [interpolate, nodeOfCount]
  · simp only [JSNum.le, decide_eq_false_iff_not]
    norm_num

/-- C11, amended: for `min < max`, `minStrength = 0`, `0 <= maxStrength <= 1` and an
exponent for which `**` maps every `q` of `[0, 1]` to a value between 0 and `q` and is
non-decreasing there (as it is for every exponent `>= 1`), the strength is non-decreasing
in the citation count: `x <= y` gives `strength(x) <= strength(y)`, on `[min, max]` and
outside it. -/
theorem strengthFunc_monotone (pow : JSNum → JSNum → JSNum) (maxStrength min max : ℚ)
    (exp : JSNum) (x y : Node) (hmm : min < max) (h0 : 0 ≤ maxStrength) (h1 : maxStrength ≤ 1)
    (hpow : ∀ q : ℚ, 0 ≤ q → q ≤ 1 → ∃ r : ℚ, pow (.fin q) exp = .fin r ∧ 0 ≤ r ∧ r ≤ q)
    (hmono : ∀ q1 q2 r1 r2 : ℚ, 0 ≤ q1 → q1 ≤ q2 → q2 ≤ 1 →
      pow (.fin q1) exp = .fin r1 → pow (.fin q2) exp = .fin r2 → r1 ≤ r2)
    (hxy : x.attributes.refByCount ≤ y.attributes.refByCount) :
    JSNum.le
      (strengthFuncFactory pow (.fin 0) (.fin maxStrength) (.fin min) (.fin max) exp x)
      (strengthFuncFactory pow (.fin 0) (.fin maxStrength) (.fin min) (.fin max) exp y)
      = true := by
  have hox := interpolate_mono maxStrength min max _ _ hmm h0 hxy
  rw [strengthFunc_eq _ _ _ _ _ _ _ (ne_of_lt hmm), strengthFunc_eq _ _ _ _ _ _ _ (ne_of_lt hmm)]
  by_cases hx0 : interpolate 0 maxStrength min max x.attributes.refByCount ≤ 0
  · rw [if_pos hx0]
    by_cases hy0 : interpolate 0 maxStrength min max y.attributes.refByCount ≤ 0
    · rw [if_pos hy0]
      simp [JSNum.le]
    · rw [if_neg hy0]
      by_cases hy1 : maxStrength ≤ interpolate 0 maxStrength min max y.attributes.refByCount
      · rw [if_pos hy1]
        simpa [JSNum.le] using h0
      · rw [if_neg hy1]
        obtain ⟨r, hr, hr0, -⟩ := hpow _ (le_of_lt (not_le.mp hy0))
          (le_trans (le_of_lt (not_le.mp hy1)) h1)
        rw [hr]
        simpa [JSNum.le] using hr0
  · have hy0 : ¬ interpolate 0 maxStrength min max y.attributes.refByCount ≤ 0 :=
      fun h => hx0 (le_trans hox h)
    rw [if_neg hx0, if_neg hy0]
    by_cases hx1 : maxStrength ≤ interpolate 0 maxStrength min max x.attributes.refByCount
    · rw [if_pos hx1, if_pos (le_trans hx1 hox)]
      simp [JSNum.le]
    · rw [if_neg hx1]
      obtain ⟨r, hr, -, hrx⟩ := hpow _ (le_of_lt (not_le.mp hx0))
        (le_trans (le_of_lt (not_le.mp hx1)) h1)
      rw [hr]
      by_cases hy1 : maxStrength ≤ interpolate 0 maxStrength min max y.attributes.refByCount
      · rw [if_pos hy1]
        have : r ≤ maxStrength := le_trans hrx (le_of_lt (not_le.mp hx1))
        simpa [JSNum.le] using this
      · rw [if_neg hy1]
        obtain ⟨s, hs, -, -⟩ := hpow _ (le_of_lt (not_le.mp hy0))
          (le_trans (le_of_lt (not_le.mp hy1)) h1)
        rw [hs]
        have : r ≤ s := hmono _ _ r s (le_of_lt (not_le.mp hx0)) hox
          (le_trans (le_of_lt (not_le.mp hy1)) h1) hr hs
        simpa [JSNum.le] using this

/-- C11, amended, with the parameters `(0, 1, 0, 200)` of `makeGraph`, exponent 2 and
the counts 50 and 100. -/
theorem strengthFunc_monotone_witness :
    (0 : ℚ) < 200 ∧ (0 : ℚ) ≤ 1 ∧ (1 : ℚ) ≤ 1 ∧
    (nodeOfCount 50).attributes.refByCount ≤ (nodeOfCount 100).attributes.refByCount ∧
    JSNum.le
      (strengthFuncFactory (powNat 2) (.fin 0) (.fin 1) (.fin 0) (.fin 200) (.fin 2)
        (nodeOfCount 50))
      (strengthFuncFactory (powNat 2) (.fin 0) (.fin 1) (.fin 0) (.fin 200) (.fin 2)
        (nodeOfCount 100))
      = true :=
  ⟨by norm_num, by norm_num, by norm_num, by norm_num [nodeOfCount],
    strengthFunc_monotone (powNat 2) 1 0 200 (.fin 2) (nodeOfCount 50) (nodeOfCount 100)
      (by norm_num) (by norm_num) (by norm_num)
      (fun q hq0 hq1 => powNat_unit 2 (by norm_num) _ q hq0 hq1)
      (fun q1 q2 r1 r2 hq1 h12 _ e1 e2 => powNat_mono 2 _ q1 q2 r1 r2 hq1 h12 e1 e2)
      (by norm_num [nodeOfCount])⟩

/-- C12, as stated, fails: with `minStrength = 0`, `maxStrength = 2`, `min = 0`,
`max = 4` and exponent 2, a node cited 3 times gets the strength `1.5 ** 2 = 2.25`,
which is above `maxStrength`. -/
theorem strengthFunc_range_counterexample :
    (0 : ℚ) < 4 ∧ (0 : ℚ) ≤ 2 ∧ (1 : ℚ) ≤ 2 ∧
    strengthFuncFactory (powNat 2) (.fin 0) (.fin 2) (.fin 0) (.fin 4) (.fin 2) (nodeOfCount 3)
      = .fin (9 / 4) ∧
    JSNum.le (.fin (9 / 4)) (.fin 2) = false := by
  refine ⟨by norm_num, by norm_num, by norm_num, ?_, ?_⟩
  · rw [strengthFunc_eq _ _ _ _ _ _ _ (by norm_num), powNat_fin]
    norm_num [interpolate, nodeOfCount]
  · simp only [JSNum.le, decide_eq_false_iff_not]
    norm_num

/-- C12, amended: for `min < max`, `minStrength = 0`, `0 <= maxStrength <= 1` and an
exponent for which `**` maps every `q` of `[0, 1]` to a value between 0 and `q` (as it
does for every exponent `>= 1`), the strength of every node is a finite number in
`[minStrength, maxStrength]`. -/
theorem strengthFunc_range (pow : JSNum → JSNum → JSNum) (maxStrength min max : ℚ)
    (exp : JSNum) (node : Node) (hmm : min < max) (h0 : 0 ≤ maxStrength)
    (h1 : maxStrength ≤ 1)
    (hpow : ∀ q : ℚ, 0 ≤ q → q ≤ 1 → ∃ r : ℚ, pow (.fin q) exp = .fin r ∧ 0 ≤ r ∧ r ≤ q) :
    ∃ r : ℚ,
      strengthFuncFactory pow (.fin 0) (.fin maxStrength) (.fin min) (.fin max) exp node
        = .fin r ∧ 0 ≤ r ∧ r ≤ maxStrength := by
  rw [strengthFunc_eq _ _ _ _ _ _ _ (ne_of_lt hmm)]
  by_cases hx0 : interpolate 0 maxStrength min max node.attributes.refByCount ≤ 0
  · rw [if_pos hx0]
    exact ⟨0, rfl, le_refl 0, h0⟩
  · rw [if_neg hx0]
    by_cases hx1 : maxStrength ≤ interpolate 0 maxStrength min max node.attributes.refByCount
    · rw [if_pos hx1]
      exact ⟨maxStrength, rfl, h0, le_refl _⟩
    · rw [if_neg hx1]
      obtain ⟨r, hr, hr0, hrx⟩ := hpow _ (le_of_lt (not_le.mp hx0))
        (le_trans (le_of_lt (not_le.mp hx1)) h1)
      exact ⟨r, hr, hr0, le_trans hrx (le_of_lt (not_le.mp hx1))⟩

/-- C12, amended, with the parameters `(0, 1, 0, 200)` of `makeGraph`, exponent 2 and a
node cited 50 times. -/
theorem strengthFunc_range_witness :
    (0 : ℚ) < 200 ∧ (0 : ℚ) ≤ 1 ∧ (1 : ℚ) ≤ 1 ∧
    ∃ r : ℚ,
      strengthFuncFactory (powNat 2) (.fin 0) (.fin 1) (.fin 0) (.fin 200) (.fin 2)
        (nodeOfCount 50) = .fin r ∧ 0 ≤ r ∧ r ≤ 1 :=
  ⟨by norm_num, by norm_num, by norm_num,
    strengthFunc_range (powNat 2) 1 0 200 (.fin 2) (nodeOfCount 50)
      (by norm_num) (by norm_num) (by norm_num)
      (fun q hq0 hq1 => powNat_unit 2 (by norm_num) _ q hq0 hq1)⟩

/-- C13, as stated, fails: with `min = max = 5`, `minStrength = 0`, `maxStrength = 1`
and exponent 1, a node cited 3 times gets `minStrength`, not `maxStrength`, and a node
cited exactly 5 times gets `NaN` (the quotient `0 / 0` is not guarded). -/
theorem strengthFunc_degenerate_counterexample :
    strengthFuncFactory (powNat 1) (.fin 0) (.fin 1) (.fin 5) (.fin 5) (.fin 1) (nodeOfCount 3)
      = .fin 0 ∧
    strengthFuncFactory (powNat 1) (.fin 0) (.fin 1) (.fin 5) (.fin 5) (.fin 1) (nodeOfCount 5)
      = .nan ∧
    JSNum.fin 0 ≠ JSNum.fin 1 ∧ JSNum.nan ≠ JSNum.fin 1 := by
  refine ⟨?_, ?_, by simp, by simp⟩
  · simp [strengthFuncFactory, nodeOfCount, JSNum.sub, JSNum.neg, JSNum.add, JSNum.mul,
      JSNum.div, JSNum.le, JSNum.infOfSign]
    norm_num
  · simp [strengthFuncFactory, nodeOfCount, JSNum.sub, JSNum.neg, JSNum.add, JSNum.mul,
      JSNum.div, JSNum.le, JSNum.ge, powNat]

/-- C13, amended: the function returned by `strengthFuncFactory` never throws, but for
`min == max` the division is not guarded inside it: with `minStrength < maxStrength` it
returns `maxStrength` for a count above `min`, `minStrength` for a count below `min`,
and `NaN ** exp` for a count equal to `min`. The degenerate case is guarded by the
caller: for `outerValue == 0`, `readLayout` installs the constant strength `1.0` (the
`maxStrength` it would pass) and does not call the factory. -/
theorem strengthFunc_degenerate (pow : JSNum → JSNum → JSNum) (minStrength maxStrength m : ℚ)
    (exp radius : JSNum) (node : Node) (hs : minStrength < maxStrength) :
    (m < node.attributes.refByCount →
      strengthFuncFactory pow (.fin minStrength) (.fin maxStrength) (.fin m) (.fin m) exp node
        = .fin maxStrength) ∧
    (node.attributes.refByCount < m →
      strengthFuncFactory pow (.fin minStrength) (.fin maxStrength) (.fin m) (.fin m) exp node
        = .fin minStrength) ∧
    (node.attributes.refByCount = m →
      strengthFuncFactory pow (.fin minStrength) (.fin maxStrength) (.fin m) (.fin m) exp node
        = pow .nan exp) ∧
    (readLayout pow radius (.fin 0)).strength node = .fin 1 ∧
    (readLayout pow radius (.fin 0)).radius = radius := by
  have hr : 0 < maxStrength + -minStrength := by linarith
  refine ⟨?_, ?_, ?_, ?_, ?_⟩
  · intro hx
    have hnum : 0 < (node.attributes.refByCount + -m) * (maxStrength + -minStrength) :=
      mul_pos (by linarith) hr
    simp [strengthFuncFactory, JSNum.sub, JSNum.neg, JSNum.add, JSNum.mul, JSNum.div,
      JSNum.le, JSNum.ge, JSNum.infOfSign, ne_of_gt hnum, hnum]
  · intro hx
    have hnum : (node.attributes.refByCount + -m) * (maxStrength + -minStrength) < 0 :=
      mul_neg_of_neg_of_pos (by linarith) hr
    simp [strengthFuncFactory, JSNum.sub, JSNum.neg, JSNum.add, JSNum.mul, JSNum.div,
      JSNum.le, JSNum.ge, JSNum.infOfSign, ne_of_lt hnum, not_lt.mpr (le_of_lt hnum)]
  · intro hx
    simp [strengthFuncFactory, JSNum.sub, JSNum.neg, JSNum.add, JSNum.mul, JSNum.div,
      JSNum.le, JSNum.ge, hx]
  · simp [readLayout]
  · simp [readLayout]

/-- C13, amended, with `min = max = 5` and the strengths 0 and 1. -/
theorem strengthFunc_degenerate_witness :
    (0 : ℚ) < 1 ∧
    strengthFuncFactory (powNat 1) (.fin 0) (.fin 1) (.fin 5) (.fin 5) (.fin 1) (nodeOfCount 7)
      = .fin 1 ∧
    strengthFuncFactory (powNat 1) (.fin 0) (.fin 1) (.fin 5) (.fin 5) (.fin 1) (nodeOfCount 5)
      = powNat 1 .nan (.fin 1) ∧
    (readLayout (powNat 1) (.fin 100) (.fin 0)).strength (nodeOfCount 5) = .fin 1 :=
  ⟨by norm_num,
    (strengthFunc_degenerate (powNat 1) 0 1 5 (.fin 1) (.fin 100) (nodeOfCount 7)
      (by norm_num)).1 (by norm_num [nodeOfCount]),
    (strengthFunc_degenerate (powNat 1) 0 1 5 (.fin 1) (.fin 100) (nodeOfCount 5)
      (by norm_num)).2.2.1 rfl,
    (strengthFunc_degenerate (powNat 1) 0 1 5 (.fin 1) (.fin 100) (nodeOfCount 5)
      (by norm_num)).2.2.2.1⟩

end CitationNet
